import Mathlib

/-
Verification development for the BigDataIndexing plan-management service.

The repository stores a hierarchical "plan" document in a key-value store.
Two controller evolutions exist:
  * the whole-document evolution (planController.js): the full plan JSON is
    stored under its objectId, PATCH is RFC 7396 merge-patch (mergePatch.js);
  * the normalized evolution (store.js + the normalized controller): the plan
    is decomposed into a plan-reference record plus independently stored child
    entities in four namespaces (plan, planservice, service, membercostshare),
    reads materialize the reference, and a composite ETag is an md5 of the
    serialized reference joined with the sorted list of descendant etags.

This file embeds the relevant functions shallowly: JSON values are the
inductive JVal; JS objects are ordered association lists; the key-value store
is a quadruple of partial maps; md5 and JSON.stringify are abstracted as
function parameters (bundled in Hash) since only determinism of the content
hash is relied on by the code.
-/

namespace BigDataIndexing

/-- JSON values as parsed by express.json: null, strings, numbers, booleans,
ordered objects and arrays.  Numbers are modelled as integers (no claim
depends on non-integer numerics). -/
inductive JVal where
  | null : JVal
  | str : String → JVal
  | num : Int → JVal
  | bool : Bool → JVal
  | obj : List (String × JVal) → JVal
  | arr : List JVal → JVal
deriving Repr

/-- isObj from mergePatch.js: a value is a mergeable object iff it is a
non-null, non-array JS object. -/
def isObj : JVal → Bool
  | .obj _ => true
  | _ => false

/-- The `v === null` test in the merge loop. -/
def JVal.isNull : JVal → Bool
  | .null => true
  | _ => false

/-- Lookup of a key in a JS object's field list (first match, as JS property
access on objects parsed from JSON). -/
def getKey (l : List (String × JVal)) (k : String) : Option JVal :=
  match l with
  | [] => none
  | (k', v) :: t => if k' = k then some v else getKey t k

/-- JS `delete out[k]`: removes the key from the field list. -/
def delKey (l : List (String × JVal)) (k : String) : List (String × JVal) :=
  match l with
  | [] => []
  | (k', v) :: t => if k' = k then delKey t k else (k', v) :: delKey t k

/-- Whether the field list binds the key (`k in out`). -/
def hasKey (l : List (String × JVal)) (k : String) : Bool :=
  match l with
  | [] => false
  | (k', _) :: t => k' = k || hasKey t k

/-- In-place update of an existing key, keeping its position. -/
def replaceKey (l : List (String × JVal)) (k : String) (v : JVal) :
    List (String × JVal) :=
  match l with
  | [] => []
  | (k', v') :: t =>
      if k' = k then (k, v) :: replaceKey t k v else (k', v') :: replaceKey t k v

/-- JS `out[k] = v`: updates an existing key in place (keeping its position)
or appends the key at the end, as JS object assignment does. -/
def setKey (l : List (String × JVal)) (k : String) (v : JVal) : List (String × JVal) :=
  if hasKey l k then replaceKey l k v else l ++ [(k, v)]

/-- `isObj(target) ? {...target} : {}` — the starting object of the merge. -/
def objFieldsOr (t : JVal) : List (String × JVal) :=
  match t with
  | .obj tf => tf
  | _ => []

mutual

/-- applyMergePatch from mergePatch.js (RFC 7396): a non-object patch replaces
the target wholesale; an object patch is folded over the (object or fresh
empty) target: null deletes the key, object-on-object recurses, anything else
replaces the key. -/
def applyMergePatch (target patch : JVal) : JVal :=
  match patch with
  | .obj pf => .obj (mergeFields (objFieldsOr target) pf)
  | p => p
termination_by (sizeOf patch, 0)

/-- The value assigned for a non-null patch entry: `isObj(v) && isObj(out[k])`
recurses, otherwise `v` replaces. -/
def mergeOne (out : List (String × JVal)) (k : String) (v : JVal) : JVal :=
  match v, getKey out k with
  | .obj pf, some (.obj tf) => applyMergePatch (.obj tf) (.obj pf)
  | v, _ => v
termination_by (sizeOf v, 1)

/-- The `for (const [k,v] of Object.entries(patch))` loop of applyMergePatch,
threading the `out` object. -/
def mergeFields (out : List (String × JVal)) : List (String × JVal) → List (String × JVal)
  | [] => out
  | (k, v) :: rest =>
      if v.isNull then mergeFields (delKey out k) rest
      else mergeFields (setKey out k (mergeOne out k v)) rest
termination_by l => (sizeOf l, 2)

end

example : applyMergePatch (.obj [("a", .num 1)]) (.obj [("a", .num 2)]) =
    .obj [("a", .num 2)] := by
  simp [applyMergePatch, mergeFields, mergeOne, setKey, getKey, delKey,
    hasKey, replaceKey, objFieldsOr, JVal.isNull]

/-! ## Data model of the normalized evolution

The wire documents of the normalized controller are plan-shaped: the scalar
root fields `_org`, `objectType`, `planType`, `creationDate` carry arbitrary
JSON values; `planCostShares` is a membercostshare child; each entry of
`linkedPlanServices` is a planservice child with an optional nested service
descriptor and an optional nested membercostshare.  Child objects are
modelled as their identifier plus an opaque bag `rest` of their remaining
fields (the code only ever inspects `objectId` and the two nested slots and
otherwise copies children verbatim).  The identifiers are typed as strings
(the code's `typeof !== "string"` rejection paths coincide with the empty
string in this model, since JS also treats `""` as falsy there). -/

/-- A membercostshare entity (cost-share): objectId plus its other fields. -/
structure MCS where
  objectId : String
  rest : JVal
deriving Repr

/-- A service descriptor entity: objectId plus its other fields. -/
structure Svc where
  objectId : String
  rest : JVal
deriving Repr

/-- A planservice (linked-plan-service) entry: objectId, the optional nested
service descriptor, the optional nested cost-share, plus its other fields.
The stored planservice record is this whole object, nested copies included,
exactly as `put(NS.planservice, lps.objectId, lps)` stores it. -/
structure LPS where
  objectId : String
  linkedService : Option Svc
  planserviceCostShares : Option MCS
  rest : JVal
deriving Repr

/-- The plan reference document produced by toPlanRefDoc: scalar root fields
plus child identifiers only. -/
structure PlanRef where
  _org : JVal
  objectId : String
  objectType : JVal
  planType : JVal
  creationDate : JVal
  planCostSharesId : Option String
  linkedPlanServiceIds : List String
deriving Repr

/-- A full (wire-format / materialized) plan document. -/
structure Plan where
  _org : JVal
  objectId : String
  objectType : JVal
  planType : JVal
  creationDate : JVal
  planCostShares : Option MCS
  linkedPlanServices : List LPS
deriving Repr

/-- The four entity namespaces of store.js, each a flat map from id to the
stored content.  The stored etag is not a separate field: redis.setData
computes it as md5(JSON.stringify(data)), so it is a function of the content
and is recomputed through `Hash` below. -/
structure Store where
  plan : String → Option PlanRef
  planservice : String → Option LPS
  service : String → Option Svc
  membercostshare : String → Option MCS

/-- Pointwise update of one namespace map. -/
def updFn {α : Type} (f : String → Option α) (k : String) (v : Option α) :
    String → Option α :=
  fun x => if x = k then v else f x

def putPlanRef (s : Store) (id : String) (r : PlanRef) : Store :=
  { s with plan := updFn s.plan id (some r) }

def putLps (s : Store) (l : LPS) : Store :=
  { s with planservice := updFn s.planservice l.objectId (some l) }

def putSvc (s : Store) (v : Svc) : Store :=
  { s with service := updFn s.service v.objectId (some v) }

def putMcs (s : Store) (m : MCS) : Store :=
  { s with membercostshare := updFn s.membercostshare m.objectId (some m) }

def delPlanRef (s : Store) (id : String) : Store :=
  { s with plan := updFn s.plan id none }

/-- Abstraction of the crypto/serialization collaborators: `md5` models the
md5 hex digest of a string, and the `ser*` functions model JSON.stringify on
each document shape.  The code relies only on these being deterministic
functions (the etag of stored content is recomputed, not stored separately,
which is faithful because redis.setData derives it from the content). -/
structure Hash where
  md5 : String → String
  serMCS : MCS → String
  serSvc : Svc → String
  serLPS : LPS → String
  serRef : PlanRef → String

/-- The etag redis.setData returns for a membercostshare value. -/
def etagMCS (H : Hash) (m : MCS) : String := H.md5 (H.serMCS m)

/-- The etag redis.setData returns for a service value. -/
def etagSvc (H : Hash) (v : Svc) : String := H.md5 (H.serSvc v)

/-- The etag redis.setData returns for a planservice value. -/
def etagLPS (H : Hash) (l : LPS) : String := H.md5 (H.serLPS l)

/-- The etag redis.setData returns for a plan reference value. -/
def etagRef (H : Hash) (r : PlanRef) : String := H.md5 (H.serRef r)

/-- JS `childEtags.sort()` on an array of strings: lexicographic sort. -/
def sortStrings (l : List String) : List String := l.insertionSort (· ≤ ·)

/-- computeCompositePlanETag from the normalized controller:
`md5(JSON.stringify(planRefDoc) + '|' + childEtags.sort().join('|'))`.
The already-serialized reference is taken as a string argument `refStr`. -/
def computeCompositePlanETag (md5 : String → String) (refStr : String)
    (childEtags : List String) : String :=
  md5 (refStr ++ "|" ++ String.intercalate "|" (sortStrings childEtags))

/-! ## Conditional-header processing

`requireIfMatchOr412` is present, with identical bodies, in both controller
evolutions (planController.js and the normalized controller): absence of the
If-Match header (JS falsy, which includes the empty string) yields 412
"If-Match required"; otherwise every double-quote character is removed from
the header value and the result is compared with the expected etag. -/

/-- `ifm.replace(/"/g, '')`: remove every double-quote character. -/
def stripQuotes (s : String) : String :=
  ⟨s.data.filter (fun c => c ≠ '"')⟩

/-- Outcome of the If-Match precondition check. -/
inductive IfMatchRes where
  | required
  | stale
  | matched
deriving Repr, DecidableEq

/-- requireIfMatchOr412 (both evolutions). -/
def requireIfMatch : Option String → String → IfMatchRes
  | none, _ => .required
  | some h, expected =>
      if h = "" then .required
      else if stripQuotes h = expected then .matched
      else .stale

/-- The If-None-Match comparison of the read paths
(`inm && inm.replace(/"/g,'') === etag`). -/
def inmMatches : Option String → String → Bool
  | none, _ => false
  | some h, etag => h ≠ "" && stripQuotes h = etag

/-! ## Validation

The `seen`-set duplicate scan of validateNestedStructure (the normalized
evolution's validator: uniqueness is enforced only among sibling planservice
identifiers, falsy — here empty — ids being skipped).  The JSON-schema part
of completeValidation is Ajv compiled over planSchema from schema.js (the
second segment of src/README.md); the controllers below take the compiled
schema check as a parameter `schema : Plan → Bool`, and planSchema itself is
embedded further down as `schemaOk`. -/

/-- The `seen` fold of validateNestedStructure: true iff no listed id repeats. -/
def noDupIds (seen : List String) : List String → Bool
  | [] => true
  | x :: xs => if x ∈ seen then false else noDupIds (x :: seen) xs

/-- validateNestedStructure of the normalized evolution's validator: only
sibling planservice objectIds must be pairwise distinct (shared service and
cost-share ids are allowed by design); falsy ids are skipped. -/
def validateNestedStructure (p : Plan) : Bool :=
  noDupIds [] (p.linkedPlanServices.filterMap
    (fun l => if l.objectId = "" then none else some l.objectId))

/-- completeValidation: the JSON-schema verdict and the nested-structure
verdict conjoined. -/
def completeValidation (schema : Plan → Bool) (p : Plan) : Bool :=
  schema p && validateNestedStructure p

/-! planSchema from schema.js (the second segment of src/README.md), as
compiled by Ajv in validator.js.  The regular-expression `pattern` checks
are anchored (`^...$`), so they are embedded as whole-string matchers over
the character list.  In the typed model a child's JSON object consists of
its typed slots (`objectId`, and for a planservice entry `linkedService` /
`planserviceCostShares`) together with the fields of its `rest` bag, so
`required` keys other than the typed slots are looked up in `rest` and
`additionalProperties: false` bounds the keys of `rest` by the remaining
schema properties. -/

/-- The character class `[a-zA-Z0-9.-]` of the `_org` pattern. -/
def isOrgChar (c : Char) : Bool :=
  c.isAlpha || c.isDigit || c == '.' || c == '-'

/-- The anchored `_org` pattern `^[a-zA-Z0-9.-]+\.[a-zA-Z]{2,}$`: a
non-empty class prefix, a literal dot, then at least two ASCII letters,
consuming the whole string. -/
def orgPatternOk (s : String) : Bool :=
  (List.range s.data.length).any (fun i =>
    match s.data.drop i with
    | '.' :: b =>
        decide (1 ≤ i) && (s.data.take i).all isOrgChar &&
        decide (2 ≤ b.length) && b.all Char.isAlpha
    | _ => false)

/-- The anchored creationDate pattern
`^(0[1-9]|1[0-2])-(0[1-9]|[12][0-9]|3[01])-(19|20)\d\d$` (MM-DD-YYYY). -/
def dateOk (s : String) : Bool :=
  match s.data with
  | [m1, m2, '-', d1, d2, '-', y1, y2, y3, y4] =>
      ((m1 == '0' && decide ('1' ≤ m2) && decide (m2 ≤ '9')) ||
        (m1 == '1' && decide ('0' ≤ m2) && decide (m2 ≤ '2'))) &&
      ((d1 == '0' && decide ('1' ≤ d2) && decide (d2 ≤ '9')) ||
        ((d1 == '1' || d1 == '2') && d2.isDigit) ||
        (d1 == '3' && (d2 == '0' || d2 == '1'))) &&
      ((y1 == '1' && y2 == '9') || (y1 == '2' && y2 == '0')) &&
      y3.isDigit && y4.isDigit
  | _ => false

/-- A required property of `{ type: "number", minimum: 0 }`. -/
def numFieldOk (fields : List (String × JVal)) (k : String) : Bool :=
  match getKey fields k with
  | some (.num n) => decide (0 ≤ n)
  | _ => false

/-- A required `_org` property matching the organisation pattern. -/
def orgFieldOk (fields : List (String × JVal)) : Bool :=
  match getKey fields "_org" with
  | some (.str s) => orgPatternOk s
  | _ => false

/-- A required string property with a single-value `enum`. -/
def enumFieldOk (fields : List (String × JVal)) (k v : String) : Bool :=
  match getKey fields k with
  | some (.str s) => s == v
  | _ => false

/-- The membercostshare object schema (planCostShares and
planserviceCostShares): required deductible/copay numbers ≥ 0, `_org`
matching the pattern, objectId of minLength 1, objectType enum
`membercostshare`, and no additional properties. -/
def mcsSchemaOk (m : MCS) : Bool :=
  m.objectId ≠ "" &&
  match m.rest with
  | .obj fields =>
      numFieldOk fields "deductible" && orgFieldOk fields &&
      numFieldOk fields "copay" &&
      enumFieldOk fields "objectType" "membercostshare" &&
      fields.all (fun q =>
        q.1 == "deductible" || q.1 == "_org" || q.1 == "copay" ||
        q.1 == "objectType")
  | _ => false

/-- The linkedService object schema: required `_org` (pattern), objectId of
minLength 1, objectType enum `service`, name of minLength 1, and no
additional properties. -/
def svcSchemaOk (v : Svc) : Bool :=
  v.objectId ≠ "" &&
  match v.rest with
  | .obj fields =>
      orgFieldOk fields && enumFieldOk fields "objectType" "service" &&
      (match getKey fields "name" with
       | some (.str s) => s ≠ ""
       | _ => false) &&
      fields.all (fun q => q.1 == "_org" || q.1 == "objectType" || q.1 == "name")
  | _ => false

/-- The linkedPlanServices item schema: required linkedService and
planserviceCostShares sub-objects, `_org` (pattern), objectId of minLength
1, objectType enum `planservice`, and no additional properties. -/
def lpsSchemaOk (l : LPS) : Bool :=
  (match l.linkedService with
   | some sv => svcSchemaOk sv
   | none => false) &&
  (match l.planserviceCostShares with
   | some m => mcsSchemaOk m
   | none => false) &&
  l.objectId ≠ "" &&
  match l.rest with
  | .obj fields =>
      orgFieldOk fields && enumFieldOk fields "objectType" "planservice" &&
      fields.all (fun q => q.1 == "_org" || q.1 == "objectType")
  | _ => false

/-- planSchema's root object: required planCostShares (membercostshare
schema), linkedPlanServices (array of item schema), `_org` (pattern),
objectId of minLength 1, objectType enum `plan`, planType enum
`inNetwork`/`outOfNetwork`, creationDate matching the date pattern.  The
typed `Plan` record carries exactly the seven root properties, which is
root-level `additionalProperties: false`. -/
def schemaOk (p : Plan) : Bool :=
  (match p.planCostShares with
   | some m => mcsSchemaOk m
   | none => false) &&
  p.linkedPlanServices.all lpsSchemaOk &&
  (match p._org with
   | .str s => orgPatternOk s
   | _ => false) &&
  p.objectId ≠ "" &&
  (match p.objectType with
   | .str s => s == "plan"
   | _ => false) &&
  (match p.planType with
   | .str s => s == "inNetwork" || s == "outOfNetwork"
   | _ => false) &&
  (match p.creationDate with
   | .str s => dateOk s
   | _ => false)

/-! ## Normalization: decompose -/

/-- The per-entry body of the writeChildEntities loop: store the planservice
record, then its nested service descriptor and nested cost-share when
present (the source guards only on presence here, not on id truthiness). -/
def writeLpsChild (s : Store) (l : LPS) : Store :=
  let s1 := putLps s l
  let s2 := match l.linkedService with
    | some sv => putSvc s1 sv
    | none => s1
  match l.planserviceCostShares with
  | some m => putMcs s2 m
  | none => s2

/-- writeChildEntities: store the root cost-share (when present), then every
linkedPlanServices entry with its nested parts. -/
def writeChildEntities (s : Store) (p : Plan) : Store :=
  let s1 := match p.planCostShares with
    | some m => putMcs s m
    | none => s
  p.linkedPlanServices.foldl writeLpsChild s1

/-- toPlanRefDoc: the lean parent holding scalar root fields and child ids
only (`plan.planCostShares?.objectId ?? null` keeps an empty id as-is). -/
def toPlanRefDoc (p : Plan) : PlanRef :=
  { _org := p._org
    objectId := p.objectId
    objectType := p.objectType
    planType := p.planType
    creationDate := p.creationDate
    planCostSharesId := p.planCostShares.map (fun m => m.objectId)
    linkedPlanServiceIds := p.linkedPlanServices.map (fun l => l.objectId) }

/-! ## Materialization: expandPlanWithEtags -/

/-- One iteration of the expand loop over linkedPlanServiceIds: fetch the
planservice record (a missing one is skipped), refresh the nested service
and cost-share from their canonical namespaces when their ids are truthy
and the canonical copy exists, and collect the etags pushed along the way
(planservice etag first, then service, then cost-share). -/
def expandOne (H : Hash) (s : Store) (id : String) : Option (LPS × List String) :=
  match s.planservice id with
  | none => none
  | some l =>
      let svPart : Option Svc × List String :=
        match l.linkedService with
        | some sv =>
            if sv.objectId ≠ "" then
              match s.service sv.objectId with
              | some svc => (some svc, [etagSvc H svc])
              | none => (some sv, [])
            else (some sv, [])
        | none => (none, [])
      let mcPart : Option MCS × List String :=
        match l.planserviceCostShares with
        | some pc =>
            if pc.objectId ≠ "" then
              match s.membercostshare pc.objectId with
              | some mc => (some mc, [etagMCS H mc])
              | none => (some pc, [])
            else (some pc, [])
        | none => (none, [])
      some ({ l with linkedService := svPart.1, planserviceCostShares := mcPart.1 },
            etagLPS H l :: (svPart.2 ++ mcPart.2))

/-- The expand loop over the reference's ordered id list, keeping entry order
and concatenating the collected etags. -/
def expandLpsList (H : Hash) (s : Store) : List String → List LPS × List String
  | [] => ([], [])
  | id :: rest =>
      let tail := expandLpsList H s rest
      match expandOne H s id with
      | none => tail
      | some (l, es) => (l :: tail.1, es ++ tail.2)

/-- expandPlanWithEtags: materialize a plan reference into the full document
and collect every reachable descendant's etag.  A falsy (empty) or dangling
cost-share reference leaves the field null; a dangling planservice id is
skipped. -/
def expandPlanWithEtags (H : Hash) (s : Store) (ref : PlanRef) :
    Plan × List String :=
  let pcsPart : Option MCS × List String :=
    match ref.planCostSharesId with
    | some cid =>
        if cid ≠ "" then
          match s.membercostshare cid with
          | some m => (some m, [etagMCS H m])
          | none => (none, [])
        else (none, [])
    | none => (none, [])
  let lpsPart := expandLpsList H s ref.linkedPlanServiceIds
  ({ _org := ref._org
     objectId := ref.objectId
     objectType := ref.objectType
     planType := ref.planType
     creationDate := ref.creationDate
     planCostShares := pcsPart.1
     linkedPlanServices := lpsPart.1 },
   pcsPart.2 ++ lpsPart.2)

/-- The composite etag the controllers compute for a stored reference: the
reference's own etag consed onto the expanded descendants' etags, folded by
computeCompositePlanETag. -/
def beforeCompositeOf (H : Hash) (s : Store) (ref : PlanRef) : String :=
  computeCompositePlanETag H.md5 (H.serRef ref)
    (etagRef H ref :: (expandPlanWithEtags H s ref).2)

/-! ## The normalized controller -/

/-- A PATCH body for the normalized controller.  A scalar field is absent
(`none`) or present with a JSON value (`some v`; `some .null` is a present
null).  `planCostShares` is `none` when absent or JSON-falsy; a present
non-object value reaches the same 400 path as an empty objectId, which the
typed model folds into the empty string.  `linkedPlanServices` is `none`
when absent or not an array; non-object array entries, which the source
skips, are not representable. -/
structure PatchBody where
  _org : Option JVal := none
  objectType : Option JVal := none
  planType : Option JVal := none
  creationDate : Option JVal := none
  planCostShares : Option MCS := none
  linkedPlanServices : Option (List LPS) := none

/-- One scalar root field of the patch loop
(`hasOwnProperty(f) && patch[f] !== null` replaces, otherwise the existing
value is kept — note that a present null is skipped, not a deletion). -/
def mergeScalarField (cur : JVal) : Option JVal → JVal
  | none => cur
  | some .null => cur
  | some v => v

/-- Step 1 of the normalized patchPlan: merge the four scalar root fields. -/
def mergePlanScalars (before : Plan) (patch : PatchBody) : Plan :=
  { before with
    _org := mergeScalarField before._org patch._org
    objectType := mergeScalarField before.objectType patch.objectType
    planType := mergeScalarField before.planType patch.planType
    creationDate := mergeScalarField before.creationDate patch.creationDate }

/-- Outcomes of the normalized patchPlan, labelled by condition (HTTP codes:
notFound 404, ifMatchRequired/ifMatchStale 412, badCostShareId 400,
costShareConflict 409, badServiceId 400, invalidDoc 400, ok 200). -/
inductive PatchRes where
  | notFound
  | ifMatchRequired
  | ifMatchStale
  | badCostShareId
  | costShareConflict
  | badServiceId
  | invalidDoc
  | ok (after : Plan) (etag : String)
deriving Repr

/-- Step 2 of the normalized patchPlan (planCostShares upsert or
move-to-new-id): a falsy/non-string objectId is a 400; moving to an id
different from the current one is a 409 when that id already exists in the
membercostshare namespace, otherwise (move to a fresh id, same id, or no
previous cost-share) the entity is upserted and the parent reference is
repointed. -/
def pcsStep (s : Store) (ref : PlanRef) (before after : Plan) :
    Option MCS → Except (PatchRes × Store) (Store × PlanRef × Plan)
  | none => .ok (s, ref, after)
  | some pcsAfter =>
      if pcsAfter.objectId = "" then .error (.badCostShareId, s)
      else
        let beforePcsId : Option String :=
          match before.planCostShares with
          | some m => if m.objectId = "" then none else some m.objectId
          | none => none
        let upserted : Store × PlanRef × Plan :=
          (putMcs s pcsAfter,
           { ref with planCostSharesId := some pcsAfter.objectId },
           { after with planCostShares := some pcsAfter })
        match beforePcsId with
        | some b =>
            if pcsAfter.objectId ≠ b then
              if (s.membercostshare pcsAfter.objectId).isSome then
                .error (.costShareConflict, s)
              else .ok upserted
            else .ok upserted
        | none => .ok upserted

/-- The writes performed for one patch entry inside the loop of step 3:
upsert the nested service and cost-share when their ids are truthy, then
store the planservice record itself under its id. -/
def upsertChildWrites (s : Store) (e : LPS) : Store :=
  let s1 := match e.linkedService with
    | some sv => if sv.objectId ≠ "" then putSvc s sv else s
    | none => s
  let s2 := match e.planserviceCostShares with
    | some pc => if pc.objectId ≠ "" then putMcs s1 pc else s1
    | none => s1
  putLps s2 e

/-- The append/upsert loop of step 3 over the patch's linkedPlanServices
entries: a falsy/non-string entry id stops with a 400 (`none`, the store
keeping the writes already performed); otherwise the entry's writes are
performed and ids not already referenced are collected in order for
appending. -/
def upsertLpsLoop (s : Store) (existingIds acc : List String) :
    List LPS → Store × Option (List String)
  | [] => (s, some acc)
  | e :: rest =>
      if e.objectId = "" then (s, none)
      else if e.objectId ∈ existingIds then
        upsertLpsLoop (upsertChildWrites s e) existingIds acc rest
      else
        upsertLpsLoop (upsertChildWrites s e) (e.objectId :: existingIds)
          (acc ++ [e.objectId]) rest

/-- One iteration of the patch path's rebuild loop: like the expand loop it
fetches the planservice record (skipping a missing one) and refreshes the
nested parts from their canonical namespaces, but collects no etags. -/
def rebuildOne (s : Store) (id : String) : Option LPS :=
  match s.planservice id with
  | none => none
  | some l =>
      let svPart : Option Svc :=
        match l.linkedService with
        | some sv =>
            if sv.objectId ≠ "" then
              match s.service sv.objectId with
              | some svc => some svc
              | none => some sv
            else some sv
        | none => none
      let mcPart : Option MCS :=
        match l.planserviceCostShares with
        | some pc =>
            if pc.objectId ≠ "" then
              match s.membercostshare pc.objectId with
              | some mc => some mc
              | none => some pc
            else some pc
        | none => none
      some { l with linkedService := svPart, planserviceCostShares := mcPart }

/-- The rebuild of `after.linkedPlanServices` over the final id list. -/
def rebuildList (s : Store) (ids : List String) : List LPS :=
  ids.filterMap (rebuildOne s)

/-- Step 3 of the normalized patchPlan: append/upsert semantics for
linkedPlanServices (the id list is extended, never replaced).  The
`if (newIdsToAppend.length)` guard of the source is dropped since
concatenating an empty list is the identity. -/
def lpsStep (s : Store) (ref : PlanRef) (after : Plan) :
    Option (List LPS) → Except (PatchRes × Store) (Store × PlanRef × Plan)
  | none => .ok (s, ref, after)
  | some pl =>
      match upsertLpsLoop s ref.linkedPlanServiceIds [] pl with
      | (s1, none) => .error (.badServiceId, s1)
      | (s1, some newIds) =>
          let ref1 := { ref with
            linkedPlanServiceIds := ref.linkedPlanServiceIds ++ newIds }
          .ok (s1, ref1,
               { after with
                 linkedPlanServices := rebuildList s1 ref1.linkedPlanServiceIds })

/-- The final `ref.data.* = after.*` scalar refresh of the parent reference
before it is persisted. -/
def refreshRefScalars (r : PlanRef) (a : Plan) : PlanRef :=
  { r with
    _org := a._org
    objectType := a.objectType
    planType := a.planType
    creationDate := a.creationDate }

/-- patchPlan of the normalized controller: load the reference (404 when
absent), enforce If-Match against the current composite etag, merge scalars,
run the cost-share step and the linked-service step (both of which write
child entities immediately), validate the resulting document only then
(400 leaves the child writes in place but does not touch the plan
namespace), and finally update the reference's scalars, persist it and
answer with the fresh composite etag. -/
def patchPlan (H : Hash) (schema : Plan → Bool) (s : Store) (planId : String)
    (ifm : Option String) (patch : PatchBody) : PatchRes × Store :=
  match s.plan planId with
  | none => (.notFound, s)
  | some refData =>
      match requireIfMatch ifm (beforeCompositeOf H s refData) with
      | .required => (.ifMatchRequired, s)
      | .stale => (.ifMatchStale, s)
      | .matched =>
          match pcsStep s refData (expandPlanWithEtags H s refData).1
              (mergePlanScalars (expandPlanWithEtags H s refData).1 patch)
              patch.planCostShares with
          | .error r => r
          | .ok (s1, ref1, after1) =>
              match lpsStep s1 ref1 after1 patch.linkedPlanServices with
              | .error r => r
              | .ok (s2, ref2, after2) =>
                  if completeValidation schema after2 then
                    (.ok after2
                       (beforeCompositeOf H
                         (putPlanRef s2 planId (refreshRefScalars ref2 after2))
                         (refreshRefScalars ref2 after2)),
                     putPlanRef s2 planId (refreshRefScalars ref2 after2))
                  else (.invalidDoc, s2)

/-- Outcomes of the normalized createPlan (invalidDoc 400, conflict 409,
created 201). -/
inductive CreateRes where
  | invalidDoc
  | conflict
  | created (doc : Plan) (etag : String)
deriving Repr

/-- createPlan of the normalized controller: validate, reject an already
existing objectId, write the children canonically, store the reference and
answer with the composite etag and the request document. -/
def createPlan (H : Hash) (schema : Plan → Bool) (s : Store) (planData : Plan) :
    CreateRes × Store :=
  if completeValidation schema planData then
    if (s.plan planData.objectId).isSome then (.conflict, s)
    else
      let s1 := writeChildEntities s planData
      let refDoc := toPlanRefDoc planData
      let s2 := putPlanRef s1 planData.objectId refDoc
      (.created planData (beforeCompositeOf H s2 refDoc), s2)
  else (.invalidDoc, s)

/-- Outcomes of the normalized updatePlan (PUT). -/
inductive UpdateRes where
  | notFound
  | ifMatchRequired
  | ifMatchStale
  | idMismatch
  | invalidDoc
  | ok (doc : Plan) (etag : String)
deriving Repr

/-- The `planData.objectId && planData.objectId !== planId` guard: a truthy
body objectId differing from the path parameter is rejected (in this typed
model the body id is a string, truthy iff non-empty). -/
def bodyIdMismatch (bodyId pathId : String) : Bool :=
  bodyId ≠ "" && bodyId ≠ pathId

/-- updatePlan of the normalized controller (full replace): 404 when absent,
If-Match against the current composite, body-id guard, validation, then
children and reference are rewritten and the materialized document is
returned with the fresh composite etag. -/
def updatePlan (H : Hash) (schema : Plan → Bool) (s : Store) (planId : String)
    (ifm : Option String) (planData : Plan) : UpdateRes × Store :=
  match s.plan planId with
  | none => (.notFound, s)
  | some existingRef =>
      match requireIfMatch ifm (beforeCompositeOf H s existingRef) with
      | .required => (.ifMatchRequired, s)
      | .stale => (.ifMatchStale, s)
      | .matched =>
          if bodyIdMismatch planData.objectId planId then (.idMismatch, s)
          else if completeValidation schema planData then
            let s1 := writeChildEntities s planData
            let refDoc := toPlanRefDoc planData
            let s2 := putPlanRef s1 planId refDoc
            (.ok (expandPlanWithEtags H s2 refDoc).1 (beforeCompositeOf H s2 refDoc), s2)
          else (.invalidDoc, s)

/-- Outcomes of the normalized deletePlan (notFound 404, deleted 204). -/
inductive DeleteRes where
  | notFound
  | deleted
deriving Repr, DecidableEq

/-- deletePlan of the normalized controller: the If-Match/composite-etag
precondition block is commented out in the source, so the request's If-Match
header (received here as `_ifm`) is never consulted; only the plan reference
is removed, children are intentionally kept.  The `del` failure branch (500)
cannot occur in this store model. -/
def deletePlan (s : Store) (planId : String) (_ifm : Option String) :
    DeleteRes × Store :=
  match s.plan planId with
  | none => (.notFound, s)
  | some _ => (.deleted, delPlanRef s planId)

/-! ## The whole-document controller (planController.js)

This evolution stores the entire plan JSON document under its objectId in a
flat map; etags are content hashes of the stored document, abstracted as the
parameter `etagOf`. -/

namespace V1

/-- The whole-document store: objectId to stored JSON document. -/
def VStore : Type := String → Option JVal

/-- Pointwise update of the flat store. -/
def updV (s : VStore) (k : String) (v : Option JVal) : VStore :=
  fun x => if x = k then v else s x

/-- JS truthiness of a JSON value. -/
def jTruthy : JVal → Bool
  | .null => false
  | .str s => s ≠ ""
  | .num n => n ≠ 0
  | .bool b => b
  | .obj _ => true
  | .arr _ => true

/-- The `merged.objectId && merged.objectId !== objectId` guard of the v1
write paths: a truthy objectId field that is not strictly equal to the path
parameter is a mismatch (a truthy non-string value is never strictly equal
to a string). -/
def docIdMismatch (d : JVal) (pathId : String) : Bool :=
  match getKey (objFieldsOr d) "objectId" with
  | some (.str s) => s ≠ "" && s ≠ pathId
  | some v => jTruthy v
  | none => false

/-- Outcomes of the v1 createPlan (invalidDoc 400, preconditionFailed 412 on
If-None-Match `*`, conflict 409, created 201). -/
inductive CreateRes where
  | invalidDoc
  | preconditionFailed
  | conflict
  | created (objectId : String) (etag : String)
deriving Repr

/-- createPlan of the whole-document controller: validate first; then with
If-None-Match `*` an existing id is a 412, without it an existing id is a
409; otherwise the document is stored.  `none` marks the out-of-model case
of a validated body whose objectId is not a string (the JS code would pass
an undefined key to the store). -/
def createPlan (etagOf : JVal → String) (valid : JVal → Bool) (s : VStore)
    (inm : Option String) (planData : JVal) : Option (CreateRes × VStore) :=
  if valid planData then
    match getKey (objFieldsOr planData) "objectId" with
    | some (.str oid) =>
        let ex := (s oid).isSome
        if inm = some "*" ∧ ex then some (.preconditionFailed, s)
        else if inm ≠ some "*" ∧ ex then some (.conflict, s)
        else some (.created oid (etagOf planData), updV s oid (some planData))
    | _ => none
  else some (.invalidDoc, s)

/-- Outcomes of the v1 write paths (PUT and PATCH). -/
inductive WriteRes where
  | notFound
  | ifMatchRequired
  | ifMatchStale
  | idMismatch
  | invalidDoc
  | ok (doc : JVal) (etag : String)
deriving Repr

/-- updatePlan of the whole-document controller (full replace, If-Match
against the stored document's etag). -/
def updatePlan (etagOf : JVal → String) (valid : JVal → Bool) (s : VStore)
    (objectId : String) (ifm : Option String) (planData : JVal) :
    WriteRes × VStore :=
  match s objectId with
  | none => (.notFound, s)
  | some existing =>
      match requireIfMatch ifm (etagOf existing) with
      | .required => (.ifMatchRequired, s)
      | .stale => (.ifMatchStale, s)
      | .matched =>
          if docIdMismatch planData objectId then (.idMismatch, s)
          else if valid planData then
            (.ok planData (etagOf planData), updV s objectId (some planData))
          else (.invalidDoc, s)

/-- patchPlan of the whole-document controller: RFC 7396 merge of the stored
document with the request body, id guard, validation, store. -/
def patchPlan (etagOf : JVal → String) (valid : JVal → Bool) (s : VStore)
    (objectId : String) (ifm : Option String) (body : JVal) :
    WriteRes × VStore :=
  match s objectId with
  | none => (.notFound, s)
  | some existing =>
      match requireIfMatch ifm (etagOf existing) with
      | .required => (.ifMatchRequired, s)
      | .stale => (.ifMatchStale, s)
      | .matched =>
          let merged := applyMergePatch existing body
          if docIdMismatch merged objectId then (.idMismatch, s)
          else if valid merged then
            (.ok merged (etagOf merged), updV s objectId (some merged))
          else (.invalidDoc, s)

/-- Outcomes of the v1 deletePlan. -/
inductive DeleteRes where
  | badId
  | notFound
  | ifMatchRequired
  | ifMatchStale
  | deleted
deriving Repr, DecidableEq

/-- deletePlan of the whole-document controller: objectId shape guard, 404
when absent, If-Match enforced against the stored document's etag, then the
key is removed. -/
def deletePlan (etagOf : JVal → String) (s : VStore) (objectId : String)
    (ifm : Option String) : DeleteRes × VStore :=
  if objectId.trim = "" then (.badId, s)
  else
    match s objectId with
    | none => (.notFound, s)
    | some existing =>
        match requireIfMatch ifm (etagOf existing) with
        | .required => (.ifMatchRequired, s)
        | .stale => (.ifMatchStale, s)
        | .matched => (.deleted, updV s objectId none)

end V1

/-! ## Shared helper lemmas and concrete sample data -/

@[simp] theorem updFn_same {α : Type} (f : String → Option α) (k : String)
    (v : Option α) : updFn f k v k = v := by
  simp [updFn]

theorem updFn_ne {α : Type} (f : String → Option α) (k x : String)
    (v : Option α) (h : x ≠ k) : updFn f k v x = f x := by
  simp [updFn, h]

@[simp] theorem putLps_plan (s : Store) (l : LPS) : (putLps s l).plan = s.plan := rfl
@[simp] theorem putSvc_plan (s : Store) (v : Svc) : (putSvc s v).plan = s.plan := rfl
@[simp] theorem putMcs_plan (s : Store) (m : MCS) : (putMcs s m).plan = s.plan := rfl
@[simp] theorem putLps_mcs (s : Store) (l : LPS) :
    (putLps s l).membercostshare = s.membercostshare := rfl
@[simp] theorem putSvc_mcs (s : Store) (v : Svc) :
    (putSvc s v).membercostshare = s.membercostshare := rfl
@[simp] theorem putMcs_svc (s : Store) (m : MCS) :
    (putMcs s m).service = s.service := rfl
@[simp] theorem putLps_svc (s : Store) (l : LPS) :
    (putLps s l).service = s.service := rfl
@[simp] theorem putSvc_lps (s : Store) (v : Svc) :
    (putSvc s v).planservice = s.planservice := rfl
@[simp] theorem putMcs_lps (s : Store) (m : MCS) :
    (putMcs s m).planservice = s.planservice := rfl
@[simp] theorem putPlanRef_mcs (s : Store) (id : String) (r : PlanRef) :
    (putPlanRef s id r).membercostshare = s.membercostshare := rfl
@[simp] theorem putPlanRef_svc (s : Store) (id : String) (r : PlanRef) :
    (putPlanRef s id r).service = s.service := rfl
@[simp] theorem putPlanRef_lps (s : Store) (id : String) (r : PlanRef) :
    (putPlanRef s id r).planservice = s.planservice := rfl

/-- A concrete hash/serializer instance used by witnesses: md5 is the
constant "h", serializers are constant strings.  The code under test never
relies on injectivity of the hash, so any instance is admissible. -/
def trivHash : Hash :=
  { md5 := fun _ => "h"
    serMCS := fun _ => "m"
    serSvc := fun _ => "s"
    serLPS := fun _ => "l"
    serRef := fun _ => "r" }

/-- The empty store. -/
def emptyStore : Store :=
  { plan := fun _ => none
    planservice := fun _ => none
    service := fun _ => none
    membercostshare := fun _ => none }

/-! ## C9 — composite token is order independent -/

theorem sortStrings_perm_invariant {l₁ l₂ : List String} (h : l₁.Perm l₂) :
    sortStrings l₁ = sortStrings l₂ := by
  unfold sortStrings
  exact List.eq_of_perm_of_sorted
    (((List.perm_insertionSort _ l₁).trans h).trans
      (List.perm_insertionSort _ l₂).symm)
    (List.sorted_insertionSort _ l₁) (List.sorted_insertionSort _ l₂)

/-- C9: for every plan reference document (serialized as `refStr`) and every
list of descendant version tokens, the composite-token function is invariant
under permutation of the token list: any two orderings of the same multiset
of descendant tokens yield the same composite token (the list is sorted
before being joined and hashed). -/
theorem claim9_composite_order_independent (md5 : String → String)
    (refStr : String) (l₁ l₂ : List String) (h : l₁.Perm l₂) :
    computeCompositePlanETag md5 refStr l₁ =
      computeCompositePlanETag md5 refStr l₂ := by
  unfold computeCompositePlanETag
  rw [sortStrings_perm_invariant h]

/-- Witness for C9 at a concrete permutation. -/
theorem claim9_witness :
    (["e2", "e1", "e3"] : List String).Perm ["e1", "e3", "e2"] ∧
    computeCompositePlanETag (fun x => x) "r" ["e2", "e1", "e3"] =
      computeCompositePlanETag (fun x => x) "r" ["e1", "e3", "e2"] :=
  ⟨by decide, claim9_composite_order_independent _ _ _ _ (by decide)⟩

/-! ## C10 — conditional tokens are compared after removing quote characters -/

theorem stripQuotes_append (a b : String) :
    stripQuotes (a ++ b) = stripQuotes a ++ stripQuotes b := by
  simp [stripQuotes, String.data_append, List.filter_append]
  rfl

/-- C10: in both controller evolutions the caller's If-Match value (and
If-None-Match on read) is compared with the expected token only after every
double-quote character is removed, so any non-empty header that equals the
token after deleting all quote characters matches, an absent header is
"precondition required", and a weak-validator prefix `W/` is never stripped,
so a `W/`-prefixed value can never match a token free of `/`. -/
theorem claim10_quote_stripping :
    (∀ h t : String, t ≠ "" →
        (requireIfMatch (some h) t = .matched ↔ stripQuotes h = t)) ∧
    (∀ t : String, requireIfMatch none t = .required) ∧
    (∀ q t : String, '/' ∉ t.data → requireIfMatch (some ("W/" ++ q)) t ≠ .matched) ∧
    (∀ h t : String, t ≠ "" → (inmMatches (some h) t = true ↔ stripQuotes h = t)) := by
  have hempty : stripQuotes "" = "" := rfl
  refine ⟨?_, ?_, ?_, ?_⟩
  · intro h t ht
    constructor
    · intro hm
      by_cases h0 : h = ""
      · simp [requireIfMatch, h0] at hm
      · by_cases h1 : stripQuotes h = t
        · exact h1
        · simp [requireIfMatch, h0, h1] at hm
    · intro h1
      have h0 : h ≠ "" := by
        intro h0
        rw [h0, hempty] at h1
        exact ht h1.symm
      simp [requireIfMatch, h0, h1]
  · intro t
    rfl
  · intro q t hsl hm
    have hW : '/' ∈ (stripQuotes ("W/" ++ q)).data := by
      rw [stripQuotes_append]
      have : '/' ∈ (stripQuotes "W/").data := by decide
      simp [String.data_append]
      left
      exact this
    by_cases h0 : ("W/" ++ q : String) = ""
    · simp [requireIfMatch, h0] at hm
    · by_cases h1 : stripQuotes ("W/" ++ q) = t
      · rw [h1] at hW
        exact hsl hW
      · simp [requireIfMatch, h0, h1] at hm
  · intro h t ht
    constructor
    · intro hm
      simp [inmMatches, Bool.and_eq_true, decide_eq_true_iff] at hm
      exact hm.2
    · intro h1
      have h0 : h ≠ "" := by
        intro h0
        rw [h0, hempty] at h1
        exact ht h1.symm
      simp [inmMatches, Bool.and_eq_true, decide_eq_true_iff, h0, h1]

/-- Witness for C10 at concrete header values: a quoted header matches the
bare token, and the weak form does not. -/
theorem claim10_witness :
    ("e1" : String) ≠ "" ∧ '/' ∉ ("e1" : String).data ∧
    (requireIfMatch (some "\"e1\"") "e1" = .matched ↔ stripQuotes "\"e1\"" = "e1") ∧
    requireIfMatch (some ("W/" ++ "\"e1\"")) "e1" ≠ .matched :=
  ⟨by decide, by decide,
   claim10_quote_stripping.1 "\"e1\"" "e1" (by decide),
   claim10_quote_stripping.2.2.1 "\"e1\"" "e1" (by decide)⟩

/-! ## C7 — dangling child references are omitted, reads never fail -/

theorem expandLpsList_dangling (H : Hash) (s : Store) (d : String)
    (hd : s.planservice d = none) (pre post : List String) :
    expandLpsList H s (pre ++ d :: post) = expandLpsList H s (pre ++ post) := by
  induction pre with
  | nil => simp [expandLpsList, expandOne, hd]
  | cons a t ih => simp [expandLpsList, ih]

/-- C7: materialization is total (expandPlanWithEtags is a function, never an
error); a referenced cost-share with no stored entity leaves the field null,
and a dangling planservice id is skipped — removing the dangling id from the
reference list changes nothing in the materialized document or the collected
etags. -/
theorem claim7_dangling_children_omitted (H : Hash) (s : Store) (ref : PlanRef) :
    (∀ cid, ref.planCostSharesId = some cid → s.membercostshare cid = none →
        (expandPlanWithEtags H s ref).1.planCostShares = none) ∧
    (∀ pre post d, s.planservice d = none →
        expandPlanWithEtags H s { ref with linkedPlanServiceIds := pre ++ d :: post } =
          expandPlanWithEtags H s { ref with linkedPlanServiceIds := pre ++ post }) := by
  constructor
  · intro cid hcid hmem
    simp [expandPlanWithEtags, hcid, hmem]
  · intro pre post d hd
    simp only [expandPlanWithEtags]
    rw [expandLpsList_dangling H s d hd pre post]

/-- A sample reference whose cost-share and planservice ids dangle. -/
def refW7 : PlanRef :=
  { _org := .str "o", objectId := "p1", objectType := .str "plan",
    planType := .str "inNetwork", creationDate := .str "12-12-2017",
    planCostSharesId := some "c1", linkedPlanServiceIds := ["s9"] }

/-- Witness for C7 on a store holding neither referenced child. -/
theorem claim7_witness :
    refW7.planCostSharesId = some "c1" ∧
    emptyStore.membercostshare "c1" = none ∧
    emptyStore.planservice "s9" = none ∧
    (expandPlanWithEtags trivHash emptyStore refW7).1.planCostShares = none ∧
    expandPlanWithEtags trivHash emptyStore
        { refW7 with linkedPlanServiceIds := [] ++ "s9" :: [] } =
      expandPlanWithEtags trivHash emptyStore
        { refW7 with linkedPlanServiceIds := [] ++ [] } :=
  ⟨rfl, rfl, rfl,
   (claim7_dangling_children_omitted trivHash emptyStore refW7).1 "c1" rfl rfl,
   (claim7_dangling_children_omitted trivHash emptyStore refW7).2 [] [] "s9" rfl⟩

/-! ## C8 — creating over an existing id is always rejected -/

/-- C8: in both evolutions a create request naming an objectId that already
holds a plan is rejected without touching the store — whether or not the
document is otherwise valid (an invalid one is rejected by validation before
the collision check), and in the whole-document evolution whether or not the
caller signals create-only-if-absent via If-None-Match `*`. -/
theorem claim8_create_collision_rejected :
    (∀ (H : Hash) (schema : Plan → Bool) (s : Store) (body : Plan),
        (s.plan body.objectId).isSome →
        (createPlan H schema s body).2 = s ∧
        ((createPlan H schema s body).1 = .invalidDoc ∨
          (createPlan H schema s body).1 = .conflict)) ∧
    (∀ (etagOf : JVal → String) (valid : JVal → Bool) (s : V1.VStore)
        (inm : Option String) (body : JVal) (oid : String) (r : V1.CreateRes)
        (s' : V1.VStore),
        getKey (objFieldsOr body) "objectId" = some (.str oid) →
        (s oid).isSome →
        V1.createPlan etagOf valid s inm body = some (r, s') →
        s' = s ∧ (r = .invalidDoc ∨ r = .preconditionFailed ∨ r = .conflict)) := by
  constructor
  · intro H schema s body hex
    by_cases hv : completeValidation schema body
    · simp [createPlan, hv, hex]
    · simp [createPlan, hv]
  · intro etagOf valid s inm body oid r s' hoid hex heq
    by_cases hv : valid body
    · by_cases hinm : inm = some "*"
      · simp [V1.createPlan, hv, hoid, hinm, hex] at heq
        exact ⟨heq.2.symm, Or.inr (Or.inl heq.1.symm)⟩
      · simp [V1.createPlan, hv, hoid, hinm, hex] at heq
        exact ⟨heq.2.symm, Or.inr (Or.inr heq.1.symm)⟩
    · simp [V1.createPlan, hv] at heq
      exact ⟨heq.2.symm, Or.inl heq.1.symm⟩

/-- A stored reference under id "p1" used by create-collision witnesses. -/
def refW8 : PlanRef :=
  { _org := .str "o", objectId := "p1", objectType := .str "plan",
    planType := .str "inNetwork", creationDate := .str "12-12-2017",
    planCostSharesId := none, linkedPlanServiceIds := [] }

/-- A normalized store already holding plan "p1". -/
def storeW8 : Store := putPlanRef emptyStore "p1" refW8

/-- A colliding create body for id "p1". -/
def planW8 : Plan :=
  { _org := .str "o", objectId := "p1", objectType := .str "plan",
    planType := .str "inNetwork", creationDate := .str "12-12-2017",
    planCostShares := none, linkedPlanServices := [] }

/-- A whole-document store already holding plan "p1". -/
def vstoreW8 : V1.VStore :=
  V1.updV (fun _ => none) "p1" (some (.obj [("objectId", .str "p1")]))

/-- Witness for C8: a colliding create is rejected in both evolutions. -/
theorem claim8_witness :
    (storeW8.plan planW8.objectId).isSome = true ∧
    ((createPlan trivHash schemaOk storeW8 planW8).2 = storeW8 ∧
      ((createPlan trivHash schemaOk storeW8 planW8).1 = .invalidDoc ∨
        (createPlan trivHash schemaOk storeW8 planW8).1 = .conflict)) ∧
    (vstoreW8 = vstoreW8 ∧
      ((V1.CreateRes.conflict = .invalidDoc ∨
        V1.CreateRes.conflict = .preconditionFailed ∨
        V1.CreateRes.conflict = .conflict))) :=
  ⟨rfl,
   claim8_create_collision_rejected.1 trivHash schemaOk storeW8 planW8 rfl,
   claim8_create_collision_rejected.2 (fun _ => "h") (fun _ => true) vstoreW8
     none (.obj [("objectId", .str "p1")]) "p1" .conflict vstoreW8 rfl rfl rfl⟩

/-! ## C2 — conditional-token enforcement on mutating operations -/

/-- C2 (amended): replace and patch in both evolutions, and delete in the
whole-document evolution, reject a request whose If-Match token is absent or
does not match the current (composite) etag, leaving every stored entity
untouched; delete in the normalized evolution, however, never consults the
token and removes the plan reference unconditionally. -/
theorem claim2_precondition_enforcement :
    (∀ (H : Hash) (schema : Plan → Bool) (s : Store) (pid : String)
        (ifm : Option String) (body : Plan) (ref : PlanRef),
        s.plan pid = some ref →
        requireIfMatch ifm (beforeCompositeOf H s ref) ≠ .matched →
        ((updatePlan H schema s pid ifm body).1 = .ifMatchRequired ∨
          (updatePlan H schema s pid ifm body).1 = .ifMatchStale) ∧
        (updatePlan H schema s pid ifm body).2 = s) ∧
    (∀ (H : Hash) (schema : Plan → Bool) (s : Store) (pid : String)
        (ifm : Option String) (patch : PatchBody) (ref : PlanRef),
        s.plan pid = some ref →
        requireIfMatch ifm (beforeCompositeOf H s ref) ≠ .matched →
        ((patchPlan H schema s pid ifm patch).1 = .ifMatchRequired ∨
          (patchPlan H schema s pid ifm patch).1 = .ifMatchStale) ∧
        (patchPlan H schema s pid ifm patch).2 = s) ∧
    (∀ (etagOf : JVal → String) (valid : JVal → Bool) (s : V1.VStore)
        (oid : String) (ifm : Option String) (body ex : JVal),
        s oid = some ex →
        requireIfMatch ifm (etagOf ex) ≠ .matched →
        ((V1.updatePlan etagOf valid s oid ifm body).1 = .ifMatchRequired ∨
          (V1.updatePlan etagOf valid s oid ifm body).1 = .ifMatchStale) ∧
        (V1.updatePlan etagOf valid s oid ifm body).2 = s) ∧
    (∀ (etagOf : JVal → String) (valid : JVal → Bool) (s : V1.VStore)
        (oid : String) (ifm : Option String) (body ex : JVal),
        s oid = some ex →
        requireIfMatch ifm (etagOf ex) ≠ .matched →
        ((V1.patchPlan etagOf valid s oid ifm body).1 = .ifMatchRequired ∨
          (V1.patchPlan etagOf valid s oid ifm body).1 = .ifMatchStale) ∧
        (V1.patchPlan etagOf valid s oid ifm body).2 = s) ∧
    (∀ (etagOf : JVal → String) (s : V1.VStore) (oid : String)
        (ifm : Option String) (ex : JVal),
        s oid = some ex →
        requireIfMatch ifm (etagOf ex) ≠ .matched →
        ((V1.deletePlan etagOf s oid ifm).1 = .badId ∨
          (V1.deletePlan etagOf s oid ifm).1 = .ifMatchRequired ∨
          (V1.deletePlan etagOf s oid ifm).1 = .ifMatchStale) ∧
        (V1.deletePlan etagOf s oid ifm).2 = s) ∧
    (∀ (s : Store) (pid : String) (ifm : Option String) (r : PlanRef),
        s.plan pid = some r →
        deletePlan s pid ifm = (.deleted, delPlanRef s pid)) := by
  refine ⟨?_, ?_, ?_, ?_, ?_, ?_⟩
  · intro H schema s pid ifm body ref hs hm
    cases hr : requireIfMatch ifm (beforeCompositeOf H s ref) with
    | required => simp [updatePlan, hs, hr]
    | stale => simp [updatePlan, hs, hr]
    | matched => exact absurd hr hm
  · intro H schema s pid ifm patch ref hs hm
    cases hr : requireIfMatch ifm (beforeCompositeOf H s ref) with
    | required => simp [patchPlan, hs, hr]
    | stale => simp [patchPlan, hs, hr]
    | matched => exact absurd hr hm
  · intro etagOf valid s oid ifm body ex hs hm
    cases hr : requireIfMatch ifm (etagOf ex) with
    | required => simp [V1.updatePlan, hs, hr]
    | stale => simp [V1.updatePlan, hs, hr]
    | matched => exact absurd hr hm
  · intro etagOf valid s oid ifm body ex hs hm
    cases hr : requireIfMatch ifm (etagOf ex) with
    | required => simp [V1.patchPlan, hs, hr]
    | stale => simp [V1.patchPlan, hs, hr]
    | matched => exact absurd hr hm
  · intro etagOf s oid ifm ex hs hm
    by_cases h0 : oid.trim = ""
    · simp [V1.deletePlan, h0]
    · cases hr : requireIfMatch ifm (etagOf ex) with
      | required => simp [V1.deletePlan, h0, hs, hr]
      | stale => simp [V1.deletePlan, h0, hs, hr]
      | matched => exact absurd hr hm
  · intro s pid ifm r hs
    simp [deletePlan, hs]

/-- A stored reference and store used by the C2 theorems. -/
def refC2 : PlanRef :=
  { _org := .str "o", objectId := "p1", objectType := .str "plan",
    planType := .str "inNetwork", creationDate := .str "12-12-2017",
    planCostSharesId := none, linkedPlanServiceIds := [] }

/-- A normalized store holding only plan "p1". -/
def storeC2 : Store := putPlanRef emptyStore "p1" refC2

/-- A replacement body for the C2 witness. -/
def planC2 : Plan :=
  { _org := .str "o2", objectId := "p1", objectType := .str "plan",
    planType := .str "outNetwork", creationDate := .str "12-12-2017",
    planCostShares := none, linkedPlanServices := [] }

/-- Counterexample for C2 as stated: in the normalized evolution a DELETE
carrying no If-Match token at all is not rejected — it reports success and
removes the stored plan reference, mutating the store. -/
theorem claim2_counterexample :
    storeC2.plan "p1" = some refC2 ∧
    deletePlan storeC2 "p1" none = (.deleted, delPlanRef storeC2 "p1") ∧
    (deletePlan storeC2 "p1" none).2.plan "p1" = none ∧
    (deletePlan storeC2 "p1" none).1 ≠ .notFound :=
  ⟨rfl, rfl, rfl, by decide⟩

/-- Witness for C2's amended theorem: an absent If-Match token is rejected
by the normalized PUT without touching the store. -/
theorem claim2_witness :
    storeC2.plan "p1" = some refC2 ∧
    requireIfMatch none (beforeCompositeOf trivHash storeC2 refC2) ≠ .matched ∧
    (((updatePlan trivHash schemaOk storeC2 "p1" none planC2).1 = .ifMatchRequired ∨
       (updatePlan trivHash schemaOk storeC2 "p1" none planC2).1 = .ifMatchStale) ∧
      (updatePlan trivHash schemaOk storeC2 "p1" none planC2).2 = storeC2) :=
  ⟨rfl, by decide,
   claim2_precondition_enforcement.1 trivHash schemaOk storeC2 "p1" none planC2
     refC2 rfl (by decide)⟩

/-! ## C3 — scalar root fields under PATCH: RFC 7396 vs the normalized loop -/

theorem getKey_delKey_same (l : List (String × JVal)) (k : String) :
    getKey (delKey l k) k = none := by
  induction l with
  | nil => rfl
  | cons p t ih =>
      obtain ⟨k₁, v₁⟩ := p
      by_cases h : k₁ = k
      · simpa [delKey, h] using ih
      · simp [delKey, getKey, h, ih]

theorem getKey_delKey_ne (l : List (String × JVal)) (k k' : String)
    (h : k' ≠ k) : getKey (delKey l k) k' = getKey l k' := by
  have hks : k ≠ k' := Ne.symm h
  induction l with
  | nil => rfl
  | cons p t ih =>
      obtain ⟨k₁, v₁⟩ := p
      by_cases h1 : k₁ = k
      · subst h1
        simp [delKey, getKey, hks, ih]
      · by_cases h2 : k₁ = k'
        · simp [delKey, getKey, h1, h2, h]
        · simp [delKey, getKey, h1, h2, ih]

theorem getKey_replaceKey_same (l : List (String × JVal)) (k : String) (v : JVal)
    (h : hasKey l k = true) : getKey (replaceKey l k v) k = some v := by
  induction l with
  | nil => simp [hasKey] at h
  | cons p t ih =>
      obtain ⟨k₁, v₁⟩ := p
      by_cases h1 : k₁ = k
      · simp [replaceKey, getKey, h1]
      · have h' : hasKey t k = true := by simpa [hasKey, h1] using h
        simp [replaceKey, getKey, h1, ih h']

theorem getKey_replaceKey_ne (l : List (String × JVal)) (k k' : String) (v : JVal)
    (h : k' ≠ k) : getKey (replaceKey l k v) k' = getKey l k' := by
  have hks : k ≠ k' := Ne.symm h
  induction l with
  | nil => rfl
  | cons p t ih =>
      obtain ⟨k₁, v₁⟩ := p
      by_cases h1 : k₁ = k
      · subst h1
        simp [replaceKey, getKey, hks, ih]
      · by_cases h2 : k₁ = k'
        · simp [replaceKey, getKey, h1, h2, h]
        · simp [replaceKey, getKey, h1, h2, ih]

theorem getKey_append_single_same (l : List (String × JVal)) (k : String)
    (v : JVal) : hasKey l k = false → getKey (l ++ [(k, v)]) k = some v := by
  induction l with
  | nil => intro _; simp [getKey]
  | cons p t ih =>
      intro h
      obtain ⟨k₁, v₁⟩ := p
      have h1 : k₁ ≠ k := by
        intro hh
        simp [hasKey, hh] at h
      have h2 : hasKey t k = false := by simpa [hasKey, h1] using h
      simp [getKey, h1, ih h2]

theorem getKey_append_single_ne (l : List (String × JVal)) (k k' : String)
    (v : JVal) (h : k' ≠ k) : getKey (l ++ [(k, v)]) k' = getKey l k' := by
  have hks : k ≠ k' := Ne.symm h
  induction l with
  | nil => simp [getKey, hks]
  | cons p t ih =>
      obtain ⟨k₁, v₁⟩ := p
      by_cases h1 : k₁ = k'
      · simp [getKey, h1]
      · simp [getKey, h1, ih]

theorem getKey_setKey_same (l : List (String × JVal)) (k : String) (v : JVal) :
    getKey (setKey l k v) k = some v := by
  unfold setKey
  by_cases h : hasKey l k
  · simp [h, getKey_replaceKey_same _ _ _ h]
  · simp [h, getKey_append_single_same _ _ v (by simpa using h)]

theorem getKey_setKey_ne (l : List (String × JVal)) (k k' : String) (v : JVal)
    (h : k' ≠ k) : getKey (setKey l k v) k' = getKey l k' := by
  unfold setKey
  by_cases hk : hasKey l k
  · simp [hk, getKey_replaceKey_ne _ _ _ _ h]
  · simp [hk, getKey_append_single_ne _ _ _ _ h]

theorem mergeOne_congr (out₁ out₂ : List (String × JVal)) (k : String) (v : JVal)
    (h : getKey out₁ k = getKey out₂ k) : mergeOne out₁ k v = mergeOne out₂ k v := by
  unfold mergeOne
  rw [h]

/-- A key the patch does not mention survives the merge loop untouched. -/
theorem mergeFields_getKey_not_mem (pf : List (String × JVal)) :
    ∀ out k, k ∉ pf.map Prod.fst →
      getKey (mergeFields out pf) k = getKey out k := by
  induction pf with
  | nil =>
      intro out k _
      simp [mergeFields]
  | cons p rest ih =>
      intro out k hk
      obtain ⟨k₁, v₁⟩ := p
      have hk1 : k ≠ k₁ := by
        intro h
        apply hk
        simp only [List.map_cons]
        exact h ▸ List.mem_cons_self _ _
      have hk2 : k ∉ rest.map Prod.fst := by
        intro h
        apply hk
        simp only [List.map_cons]
        exact List.mem_cons_of_mem _ h
      by_cases hn : v₁.isNull
      · rw [show mergeFields out ((k₁, v₁) :: rest) =
            mergeFields (delKey out k₁) rest by simp [mergeFields, hn]]
        rw [ih _ _ hk2, getKey_delKey_ne _ _ _ hk1]
      · rw [show mergeFields out ((k₁, v₁) :: rest) =
            mergeFields (setKey out k₁ (mergeOne out k₁ v₁)) rest by
              simp [mergeFields, hn]]
        rw [ih _ _ hk2, getKey_setKey_ne _ _ _ _ hk1]

/-- The merge loop's effect at a key the patch does mention: a null value
deletes the binding, any other value is resolved against the original
object by `mergeOne` (object-on-object recurses, anything else replaces). -/
theorem mergeFields_getKey_mem (pf : List (String × JVal)) :
    ∀ out k v, (pf.map Prod.fst).Nodup → (k, v) ∈ pf →
      getKey (mergeFields out pf) k =
        (if v.isNull then none else some (mergeOne out k v)) := by
  induction pf with
  | nil =>
      intro out k v _ hm
      cases hm
  | cons p rest ih =>
      intro out k v hnd hm
      obtain ⟨k₁, v₁⟩ := p
      have hnd' : (k₁ :: rest.map Prod.fst).Nodup := by
        simpa only [List.map_cons] using hnd
      have hnd1 : k₁ ∉ rest.map Prod.fst := (List.nodup_cons.mp hnd').1
      have hnd2 : (rest.map Prod.fst).Nodup := (List.nodup_cons.mp hnd').2
      rcases List.mem_cons.mp hm with heq | hmem
      · injection heq with hk hv
        subst hk
        subst hv
        by_cases hn : v.isNull
        · rw [show mergeFields out ((k, v) :: rest) =
              mergeFields (delKey out k) rest by simp [mergeFields, hn]]
          rw [mergeFields_getKey_not_mem rest _ _ hnd1,
            getKey_delKey_same, if_pos hn]
        · rw [show mergeFields out ((k, v) :: rest) =
              mergeFields (setKey out k (mergeOne out k v)) rest by
                simp [mergeFields, hn]]
          rw [mergeFields_getKey_not_mem rest _ _ hnd1,
            getKey_setKey_same, if_neg hn]
      · have hkrest : k ∈ rest.map Prod.fst :=
          List.mem_map.mpr ⟨(k, v), hmem, rfl⟩
        have hk1 : k ≠ k₁ := fun h => hnd1 (h ▸ hkrest)
        by_cases hn : v₁.isNull
        · rw [show mergeFields out ((k₁, v₁) :: rest) =
              mergeFields (delKey out k₁) rest by simp [mergeFields, hn]]
          rw [ih _ _ _ hnd2 hmem,
            mergeOne_congr _ out k v (getKey_delKey_ne _ _ _ hk1)]
        · rw [show mergeFields out ((k₁, v₁) :: rest) =
              mergeFields (setKey out k₁ (mergeOne out k₁ v₁)) rest by
                simp [mergeFields, hn]]
          rw [ih _ _ _ hnd2 hmem,
            mergeOne_congr _ out k v (getKey_setKey_ne _ _ _ _ hk1)]

theorem mergeOne_not_obj (out : List (String × JVal)) (k : String) (v : JVal)
    (h : isObj v = false) : mergeOne out k v = v := by
  unfold mergeOne
  cases hg : getKey out k with
  | none => cases v <;> first | rfl | simp [isObj] at h
  | some w => cases w <;> cases v <;> first | rfl | simp [isObj] at h

theorem mergeOne_obj_target_not_obj (out : List (String × JVal)) (k : String)
    (pv : List (String × JVal)) (h : ∀ tv, getKey out k ≠ some (.obj tv)) :
    mergeOne out k (.obj pv) = .obj pv := by
  unfold mergeOne
  cases hg : getKey out k with
  | none => rfl
  | some w => cases w <;> first | rfl | exact absurd hg (h _)

/-- C3 (amended): in the normalized evolution the scalar root fields are NOT
merged under RFC 7396 — a present null is ignored (the stored value is kept,
nothing is deleted) and any non-null value, object or not, replaces the
field wholesale without recursion; the whole-document evolution's PATCH path
(applyMergePatch) does follow RFC 7396 at every root key: an unmentioned key
is preserved, a null deletes the key, an object patch value recurses into an
object target, and any other combination replaces. -/
theorem claim3_scalar_merge_semantics :
    (∀ c, mergeScalarField c none = c) ∧
    (∀ c, mergeScalarField c (some .null) = c) ∧
    (∀ c v, v ≠ .null → mergeScalarField c (some v) = v) ∧
    (∀ b p, mergePlanScalars b p =
        { b with
          _org := mergeScalarField b._org p._org
          objectType := mergeScalarField b.objectType p.objectType
          planType := mergeScalarField b.planType p.planType
          creationDate := mergeScalarField b.creationDate p.creationDate }) ∧
    (∀ tf pf, applyMergePatch (.obj tf) (.obj pf) = .obj (mergeFields tf pf)) ∧
    (∀ tf pf k, k ∉ pf.map Prod.fst →
        getKey (mergeFields tf pf) k = getKey tf k) ∧
    (∀ tf pf k, (pf.map Prod.fst).Nodup → (k, .null) ∈ pf →
        getKey (mergeFields tf pf) k = none) ∧
    (∀ tf pf k pv tv, (pf.map Prod.fst).Nodup → (k, .obj pv) ∈ pf →
        getKey tf k = some (.obj tv) →
        getKey (mergeFields tf pf) k =
          some (applyMergePatch (.obj tv) (.obj pv))) ∧
    (∀ tf pf k v, (pf.map Prod.fst).Nodup → (k, v) ∈ pf → v ≠ .null →
        isObj v = false → getKey (mergeFields tf pf) k = some v) ∧
    (∀ tf pf k pv, (pf.map Prod.fst).Nodup → (k, .obj pv) ∈ pf →
        (∀ tv, getKey tf k ≠ some (.obj tv)) →
        getKey (mergeFields tf pf) k = some (.obj pv)) := by
  refine ⟨fun c => rfl, fun c => rfl, ?_, fun b p => rfl, ?_, ?_, ?_, ?_, ?_, ?_⟩
  · intro c v h
    cases v <;> first | rfl | exact absurd rfl h
  · intro tf pf
    simp [applyMergePatch, objFieldsOr]
  · intro tf pf k h
    exact mergeFields_getKey_not_mem pf tf k h
  · intro tf pf k hnd hm
    rw [mergeFields_getKey_mem pf tf k _ hnd hm]
    simp [JVal.isNull]
  · intro tf pf k pv tv hnd hm hget
    rw [mergeFields_getKey_mem pf tf k _ hnd hm, if_neg (by simp [JVal.isNull])]
    unfold mergeOne
    rw [hget]
  · intro tf pf k v hnd hm hnull hobj
    rw [mergeFields_getKey_mem pf tf k _ hnd hm,
      if_neg (by cases v <;> first | exact absurd rfl hnull | simp [JVal.isNull]),
      mergeOne_not_obj _ _ _ hobj]
  · intro tf pf k pv hnd hm hno
    rw [mergeFields_getKey_mem pf tf k _ hnd hm, if_neg (by simp [JVal.isNull]),
      mergeOne_obj_target_not_obj _ _ _ hno]

/-- A stored plan whose `_org` is an object, for the C3 counterexample. -/
def beforeC3 : Plan :=
  { _org := .obj [("x", .num 1), ("y", .num 2)], objectId := "p1",
    objectType := .str "plan", planType := .str "inNetwork",
    creationDate := .str "12-12-2017", planCostShares := none,
    linkedPlanServices := [] }

/-- A patch carrying a sub-object for the scalar root field `_org`. -/
def patchC3 : PatchBody := { _org := some (.obj [("y", .num 3)]) }

/-- A patch carrying null for the scalar root field `_org`. -/
def patchC3null : PatchBody := { _org := some .null }

/-- Counterexample for C3 as stated: the normalized patch path replaces the
scalar root field `_org` wholesale where RFC 7396 (the repository's own
applyMergePatch) would recurse, and keeps the field where RFC 7396 would
delete it on null. -/
theorem claim3_counterexample :
    (mergePlanScalars beforeC3 patchC3)._org = .obj [("y", .num 3)] ∧
    applyMergePatch beforeC3._org (.obj [("y", .num 3)]) =
      .obj [("x", .num 1), ("y", .num 3)] ∧
    (JVal.obj [("y", .num 3)]) ≠ .obj [("x", .num 1), ("y", .num 3)] ∧
    (mergePlanScalars beforeC3 patchC3null)._org = beforeC3._org := by
  refine ⟨rfl, ?_, ?_, rfl⟩
  · simp [beforeC3, applyMergePatch, mergeFields, mergeOne, setKey, hasKey,
      replaceKey, getKey, delKey, objFieldsOr, JVal.isNull]
  · simp

/-- Witness for C3's amended theorem: a non-null scalar value replaces in
the normalized loop, and a null patch entry deletes the key under
applyMergePatch. -/
theorem claim3_witness :
    (JVal.str "z" ≠ .null) ∧
    mergeScalarField (.str "o") (some (.str "z")) = .str "z" ∧
    (([("a", JVal.null)].map Prod.fst).Nodup) ∧
    (("a", JVal.null) ∈ [("a", JVal.null)]) ∧
    getKey (mergeFields [("a", .num 1)] [("a", .null)]) "a" = none :=
  ⟨by simp,
   claim3_scalar_merge_semantics.2.2.1 _ _ (by simp),
   by simp,
   by simp,
   claim3_scalar_merge_semantics.2.2.2.2.2.2.1 [("a", .num 1)] [("a", .null)]
     "a" (by simp) (by simp)⟩

/-! ## C1 — what a failed patch validation leaves behind -/

theorem upsertChildWrites_plan (s : Store) (e : LPS) :
    (upsertChildWrites s e).plan = s.plan := by
  unfold upsertChildWrites
  rw [putLps_plan]
  cases e.planserviceCostShares <;> cases e.linkedService <;> dsimp only <;>
    first
      | rfl
      | (split_ifs <;> rfl)

theorem upsertLpsLoop_plan (pl : List LPS) :
    ∀ s e acc, (upsertLpsLoop s e acc pl).1.plan = s.plan := by
  induction pl with
  | nil => intro s e acc; rfl
  | cons x rest ih =>
      intro s e acc
      simp only [upsertLpsLoop]
      by_cases h0 : x.objectId = ""
      · simp [h0]
      · rw [if_neg h0]
        by_cases hm : x.objectId ∈ e
        · rw [if_pos hm, ih, upsertChildWrites_plan]
        · rw [if_neg hm, ih, upsertChildWrites_plan]

theorem pcsStep_shapes (s : Store) (ref : PlanRef) (b a : Plan) (o : Option MCS) :
    (∀ r, pcsStep s ref b a o = .error r →
        r = (.badCostShareId, s) ∨ r = (.costShareConflict, s)) ∧
    (∀ s1 r1 a1, pcsStep s ref b a o = .ok (s1, r1, a1) → s1.plan = s.plan) := by
  rcases o with _ | pc
  · constructor
    · intro r h
      cases h
    · intro s1 r1 a1 h
      injection h with h'
      injection h' with h1 h2
      rw [← h1]
  · simp only [pcsStep]
    by_cases h0 : pc.objectId = ""
    · rw [if_pos h0]
      constructor
      · intro r h
        injection h with h'
        exact Or.inl h'.symm
      · intro s1 r1 a1 h
        cases h
    · rw [if_neg h0]
      rcases hbp : b.planCostShares with _ | m
      · simp only [hbp]
        constructor
        · intro r h
          cases h
        · intro s1 r1 a1 h
          injection h with h'
          injection h' with h1 h2
          rw [← h1, putMcs_plan]
      · simp only [hbp]
        by_cases hm0 : m.objectId = ""
        · simp only [if_pos hm0]
          constructor
          · intro r h
            cases h
          · intro s1 r1 a1 h
            injection h with h'
            injection h' with h1 h2
            rw [← h1, putMcs_plan]
        · simp only [if_neg hm0]
          by_cases hne : pc.objectId ≠ m.objectId
          · rw [if_pos hne]
            by_cases hex : (s.membercostshare pc.objectId).isSome
            · rw [if_pos hex]
              constructor
              · intro r h
                injection h with h'
                exact Or.inr h'.symm
              · intro s1 r1 a1 h
                cases h
            · rw [if_neg hex]
              constructor
              · intro r h
                cases h
              · intro s1 r1 a1 h
                injection h with h'
                injection h' with h1 h2
                rw [← h1, putMcs_plan]
          · rw [if_neg hne]
            constructor
            · intro r h
              cases h
            · intro s1 r1 a1 h
              injection h with h'
              injection h' with h1 h2
              rw [← h1, putMcs_plan]

theorem lpsStep_shapes (s : Store) (ref : PlanRef) (a : Plan)
    (o : Option (List LPS)) :
    (∀ r, lpsStep s ref a o = .error r →
        r.1 = .badServiceId ∧ r.2.plan = s.plan) ∧
    (∀ s1 r1 a1, lpsStep s ref a o = .ok (s1, r1, a1) → s1.plan = s.plan) := by
  rcases o with _ | pl
  · constructor
    · intro r h
      cases h
    · intro s1 r1 a1 h
      injection h with h'
      injection h' with h1 h2
      rw [← h1]
  · simp only [lpsStep]
    rcases hu : upsertLpsLoop s ref.linkedPlanServiceIds [] pl with ⟨s1, onew⟩
    have hplan : s1.plan = s.plan := by
      have := upsertLpsLoop_plan pl s ref.linkedPlanServiceIds []
      rw [hu] at this
      exact this
    rcases onew with _ | newIds
    · constructor
      · intro r h
        injection h with h'
        rw [← h']
        exact ⟨rfl, hplan⟩
      · intro s2 r2 a2 h
        cases h
    · constructor
      · intro r h
        cases h
      · intro s2 r2 a2 h
        injection h with h'
        injection h' with h1 h2
        rw [← h1]
        exact hplan

/-- C1 (amended): when the normalized patch path reports the final
validation failure, the plan namespace is untouched (the reference was never
rewritten) — but the child namespaces are not restored: cost-share,
service and planservice entities named by the patch have already been
written by the time validation runs, as the counterexample shows. -/
theorem claim1_validation_failure_plan_namespace (H : Hash)
    (schema : Plan → Bool) (s : Store) (pid : String) (ifm : Option String)
    (patch : PatchBody) (s' : Store)
    (h : patchPlan H schema s pid ifm patch = (.invalidDoc, s')) :
    s'.plan = s.plan := by
  unfold patchPlan at h
  split at h
  · cases h
  · rename_i refData hs
    split at h
    · cases h
    · cases h
    · split at h
      · rename_i r hp
        rcases (pcsStep_shapes s refData _ _ patch.planCostShares).1 r hp with
          hr | hr <;> (rw [hr] at h; simp at h)
      · rename_i s1 ref1 after1 hp
        have hplan1 : s1.plan = s.plan :=
          (pcsStep_shapes s refData _ _ patch.planCostShares).2 s1 ref1 after1 hp
        split at h
        · rename_i r hl
          have hsh :=
            (lpsStep_shapes s1 ref1 after1 patch.linkedPlanServices).1 r hl
          rcases r with ⟨res, sr⟩
          injection h with h1 h2
          rw [← h2, hsh.2, hplan1]
        · rename_i s2 ref2 after2 hl
          have hplan2 : s2.plan = s1.plan :=
            (lpsStep_shapes s1 ref1 after1 patch.linkedPlanServices).2
              s2 ref2 after2 hl
          split at h
          · cases h
          · injection h with h1 h2
            rw [← h2, hplan2, hplan1]

/-- The stored plan reference for the C1 counterexample. -/
def refC1 : PlanRef :=
  { _org := .str "o", objectId := "p1", objectType := .str "plan",
    planType := .str "inNetwork", creationDate := .str "12-12-2017",
    planCostSharesId := some "c1", linkedPlanServiceIds := [] }

/-- A store holding plan "p1" and its cost-share "c1" with content "A". -/
def storeC1 : Store := putMcs (putPlanRef emptyStore "p1" refC1) ⟨"c1", .str "A"⟩

/-- A patch upserting cost-share "c1" to content "B" while making the
resulting document fail schema validation (planType becomes a number). -/
def patchC1 : PatchBody :=
  { planType := some (.num 3), planCostShares := some ⟨"c1", .str "B"⟩ }

/-- Counterexample for C1 as stated: the patch is rejected by the final
structural validation, yet the membercostshare namespace no longer holds the
value it held before the request — the cost-share write had already
happened. -/
theorem claim1_counterexample :
    (patchPlan trivHash schemaOk storeC1 "p1" (some "h") patchC1).1 = .invalidDoc ∧
    (patchPlan trivHash schemaOk storeC1 "p1" (some "h") patchC1).2.membercostshare "c1" =
      some ⟨"c1", .str "B"⟩ ∧
    storeC1.membercostshare "c1" = some ⟨"c1", .str "A"⟩ ∧
    (some (MCS.mk "c1" (.str "B")) ≠ some (MCS.mk "c1" (.str "A"))) :=
  ⟨rfl, rfl, rfl, by simp⟩

/-- Witness for C1's amended theorem at the counterexample instance. -/
theorem claim1_witness :
    patchPlan trivHash schemaOk storeC1 "p1" (some "h") patchC1 =
      (.invalidDoc, (patchPlan trivHash schemaOk storeC1 "p1" (some "h") patchC1).2) ∧
    (patchPlan trivHash schemaOk storeC1 "p1" (some "h") patchC1).2.plan =
      storeC1.plan :=
  ⟨rfl,
   claim1_validation_failure_plan_namespace trivHash schemaOk storeC1 "p1"
     (some "h") patchC1 _ rfl⟩

/-! ## C4 — switching the plan's cost-share to a different id -/

/-- C4 (amended): when a patch carries a planCostShares with an id different
from the current one, the behaviour depends on whether the new id already
exists in the membercostshare namespace: if it does, the patch is rejected
with a conflict and nothing is mutated; if it does not, the new entity is
written, the old cost-share entity is kept intact, and on success the plan
reference is repointed to the new id. -/
theorem claim4_costshare_repoint (H : Hash) (schema : Plan → Bool) (s : Store)
    (pid : String) (ifm : Option String) (patch : PatchBody) (ref : PlanRef)
    (pc mb : MCS)
    (hs : s.plan pid = some ref)
    (hifm : requireIfMatch ifm (beforeCompositeOf H s ref) = .matched)
    (hpc : patch.planCostShares = some pc)
    (hpcid : pc.objectId ≠ "")
    (hmb : (expandPlanWithEtags H s ref).1.planCostShares = some mb)
    (hmbid : mb.objectId ≠ "")
    (hne : pc.objectId ≠ mb.objectId) :
    ((s.membercostshare pc.objectId).isSome →
        patchPlan H schema s pid ifm patch = (.costShareConflict, s)) ∧
    (s.membercostshare pc.objectId = none →
        patch.linkedPlanServices = none →
        ∀ res s', patchPlan H schema s pid ifm patch = (res, s') →
          s'.membercostshare mb.objectId = s.membercostshare mb.objectId ∧
          s'.membercostshare pc.objectId = some pc ∧
          (∀ doc e, res = .ok doc e →
            ∃ ref', s'.plan pid = some ref' ∧
              ref'.planCostSharesId = some pc.objectId)) := by
  have hmerge : (mergePlanScalars (expandPlanWithEtags H s ref).1 patch).planCostShares =
      (expandPlanWithEtags H s ref).1.planCostShares := rfl
  constructor
  · intro hex
    simp only [patchPlan, hs, hifm, pcsStep, hpc, if_neg hpcid, hmerge, hmb,
      if_neg hmbid, if_pos hne, if_pos hex]
  · intro hex hlps res s' hres
    have hexb : (s.membercostshare pc.objectId).isSome = false := by
      rw [hex]
      rfl
    simp only [patchPlan, hs, hifm, pcsStep, hpc, if_neg hpcid, hmerge, hmb,
      if_neg hmbid, if_pos hne, hexb, Bool.false_eq_true, if_false,
      lpsStep, hlps] at hres
    have hmbne : mb.objectId ≠ pc.objectId := Ne.symm hne
    by_cases hv : completeValidation schema
        { mergePlanScalars (expandPlanWithEtags H s ref).1 patch with
          planCostShares := some pc }
    · rw [if_pos hv] at hres
      injection hres with h1 h2
      subst h1
      subst h2
      refine ⟨?_, ?_, ?_⟩
      · show (putMcs s pc).membercostshare mb.objectId = s.membercostshare mb.objectId
        exact updFn_ne _ _ _ _ hmbne
      · exact updFn_same _ _ _
      · intro doc e _
        exact ⟨_, updFn_same _ _ _, rfl⟩
    · rw [if_neg hv] at hres
      injection hres with h1 h2
      subst h1
      subst h2
      refine ⟨updFn_ne _ _ _ _ hmbne, updFn_same _ _ _, ?_⟩
      · intro doc e hok
        cases hok

/-- The stored plan reference for the C4 counterexample and witness. -/
def refC4 : PlanRef :=
  { _org := .str "o", objectId := "p1", objectType := .str "plan",
    planType := .str "inNetwork", creationDate := .str "12-12-2017",
    planCostSharesId := some "c1", linkedPlanServiceIds := [] }

/-- A store holding plan "p1", its cost-share "c1", and an unrelated
cost-share "c2" (the collision target). -/
def storeC4 : Store :=
  putMcs (putMcs (putPlanRef emptyStore "p1" refC4) ⟨"c1", .str "A"⟩)
    ⟨"c2", .str "Z"⟩

/-- A patch switching the plan's cost-share to id "c2". -/
def patchC4 : PatchBody := { planCostShares := some ⟨"c2", .str "B"⟩ }

/-- Counterexample for C4 as stated: switching to an id that already exists
in the cost-share namespace is NOT accepted — the patch is rejected with a
conflict and the store (including the plan reference) is left unchanged. -/
theorem claim4_counterexample :
    storeC4.membercostshare "c2" = some ⟨"c2", .str "Z"⟩ ∧
    patchPlan trivHash schemaOk storeC4 "p1" (some "h") patchC4 =
      (.costShareConflict, storeC4) ∧
    storeC4.plan "p1" = some refC4 ∧
    refC4.planCostSharesId = some "c1" ∧ (("c1" : String) ≠ "c2") :=
  ⟨rfl, rfl, rfl, rfl, by decide⟩

/-- The collision-free variant of the C4 store (no "c2" entity). -/
def storeC4b : Store :=
  putMcs (putPlanRef emptyStore "p1" refC4) ⟨"c1", .str "A"⟩

/-- Witness for C4's amended theorem: moving to the fresh id "c2" writes the
new entity, keeps the old one, and repoints the reference on success. -/
theorem claim4_witness :
    storeC4b.membercostshare "c2" = none ∧
    ((patchPlan trivHash schemaOk storeC4b "p1" (some "h") patchC4).2.membercostshare "c1" =
        storeC4b.membercostshare "c1" ∧
      (patchPlan trivHash schemaOk storeC4b "p1" (some "h") patchC4).2.membercostshare "c2" =
        some ⟨"c2", .str "B"⟩ ∧
      (∀ doc e,
        (patchPlan trivHash schemaOk storeC4b "p1" (some "h") patchC4).1 = .ok doc e →
        ∃ ref', (patchPlan trivHash schemaOk storeC4b "p1" (some "h") patchC4).2.plan "p1" =
            some ref' ∧ ref'.planCostSharesId = some "c2")) :=
  ⟨rfl,
   (claim4_costshare_repoint trivHash schemaOk storeC4b "p1" (some "h") patchC4
      refC4 ⟨"c2", .str "B"⟩ ⟨"c1", .str "A"⟩ rfl rfl rfl (by decide) rfl
      (by decide) (by decide)).2 rfl rfl _ _ rfl⟩

/-! ## C5 — round-trip of decompose and materialize -/

/-- The sibling planservice ids of a document. -/
def lpsIds (p : Plan) : List String :=
  p.linkedPlanServices.map (fun l => l.objectId)

/-- The ids of all membercostshare entities written by writeChildEntities:
the root cost-share (when present) followed by every nested one. -/
def mcsWriteIds (p : Plan) : List String :=
  (match p.planCostShares with
   | some m => [m.objectId]
   | none => []) ++
  p.linkedPlanServices.filterMap
    (fun l => l.planserviceCostShares.map (fun m => m.objectId))

/-- The ids of all service entities written by writeChildEntities. -/
def svcWriteIds (p : Plan) : List String :=
  p.linkedPlanServices.filterMap
    (fun l => l.linkedService.map (fun v => v.objectId))

/-- The ids of the nested service writes of a planservice list. -/
def lpsSvcIds (L : List LPS) : List String :=
  L.filterMap (fun l => l.linkedService.map (fun v => v.objectId))

/-- The ids of the nested cost-share writes of a planservice list. -/
def lpsMcsIds (L : List LPS) : List String :=
  L.filterMap (fun l => l.planserviceCostShares.map (fun m => m.objectId))

theorem writeLpsChild_planservice (s : Store) (l : LPS) :
    (writeLpsChild s l).planservice = updFn s.planservice l.objectId (some l) := by
  unfold writeLpsChild
  cases l.linkedService <;> cases l.planserviceCostShares <;> rfl

theorem writeLpsChild_service (s : Store) (l : LPS) :
    (writeLpsChild s l).service =
      (match l.linkedService with
       | some sv => updFn s.service sv.objectId (some sv)
       | none => s.service) := by
  unfold writeLpsChild
  cases l.linkedService <;> cases l.planserviceCostShares <;> rfl

theorem writeLpsChild_membercostshare (s : Store) (l : LPS) :
    (writeLpsChild s l).membercostshare =
      (match l.planserviceCostShares with
       | some pc => updFn s.membercostshare pc.objectId (some pc)
       | none => s.membercostshare) := by
  unfold writeLpsChild
  cases l.linkedService <;> cases l.planserviceCostShares <;> rfl

theorem foldl_writeLpsChild_planservice_not_mem (L : List LPS) :
    ∀ (s : Store) (i : String), i ∉ L.map (fun l => l.objectId) →
      (L.foldl writeLpsChild s).planservice i = s.planservice i := by
  induction L with
  | nil => intro s i _; rfl
  | cons a t ih =>
      intro s i hi
      have hi1 : i ≠ a.objectId := by
        intro h
        exact hi (by simp [h])
      have hi2 : i ∉ t.map (fun l => l.objectId) := by
        intro h
        exact hi (by simp [h])
      rw [List.foldl_cons, ih _ _ hi2, writeLpsChild_planservice,
        updFn_ne _ _ _ _ hi1]

theorem foldl_writeLpsChild_service_not_mem (L : List LPS) :
    ∀ (s : Store) (i : String), i ∉ lpsSvcIds L →
      (L.foldl writeLpsChild s).service i = s.service i := by
  induction L with
  | nil => intro s i _; rfl
  | cons a t ih =>
      intro s i hi
      have hi2 : i ∉ lpsSvcIds t := by
        intro h
        apply hi
        unfold lpsSvcIds at h ⊢
        rw [List.filterMap_cons]
        cases a.linkedService with
        | none => exact h
        | some sv => exact List.mem_cons_of_mem _ h
      rw [List.foldl_cons, ih _ _ hi2, writeLpsChild_service]
      cases hsv : a.linkedService with
      | none => rfl
      | some sv =>
          have hi1 : i ≠ sv.objectId := by
            intro h
            apply hi
            unfold lpsSvcIds
            rw [List.filterMap_cons, hsv]
            simp [h]
          exact updFn_ne _ _ _ _ hi1

theorem foldl_writeLpsChild_membercostshare_not_mem (L : List LPS) :
    ∀ (s : Store) (i : String), i ∉ lpsMcsIds L →
      (L.foldl writeLpsChild s).membercostshare i = s.membercostshare i := by
  induction L with
  | nil => intro s i _; rfl
  | cons a t ih =>
      intro s i hi
      have hi2 : i ∉ lpsMcsIds t := by
        intro h
        apply hi
        unfold lpsMcsIds at h ⊢
        rw [List.filterMap_cons]
        cases a.planserviceCostShares with
        | none => exact h
        | some pc => exact List.mem_cons_of_mem _ h
      rw [List.foldl_cons, ih _ _ hi2, writeLpsChild_membercostshare]
      cases hpc : a.planserviceCostShares with
      | none => rfl
      | some pc =>
          have hi1 : i ≠ pc.objectId := by
            intro h
            apply hi
            unfold lpsMcsIds
            rw [List.filterMap_cons, hpc]
            simp [h]
          exact updFn_ne _ _ _ _ hi1

theorem foldl_writeLpsChild_planservice_mem (L : List LPS) :
    ∀ (s : Store) (l : LPS), (L.map (fun l => l.objectId)).Nodup → l ∈ L →
      (L.foldl writeLpsChild s).planservice l.objectId = some l := by
  induction L with
  | nil =>
      intro s l _ hm
      cases hm
  | cons a t ih =>
      intro s l hnd hm
      rw [List.map_cons] at hnd
      have hnd' := List.nodup_cons.mp hnd
      rcases List.mem_cons.mp hm with rfl | hmem
      · rw [List.foldl_cons,
          foldl_writeLpsChild_planservice_not_mem t _ _ hnd'.1,
          writeLpsChild_planservice, updFn_same]
      · rw [List.foldl_cons]
        exact ih _ _ hnd'.2 hmem

theorem foldl_writeLpsChild_service_mem (L : List LPS) :
    ∀ (s : Store) (l : LPS) (sv : Svc), (lpsSvcIds L).Nodup → l ∈ L →
      l.linkedService = some sv →
      (L.foldl writeLpsChild s).service sv.objectId = some sv := by
  induction L with
  | nil =>
      intro s l sv _ hm _
      cases hm
  | cons a t ih =>
      intro s l sv hnd hm hsv
      rcases List.mem_cons.mp hm with rfl | hmem
      · have hnd' : sv.objectId ∉ lpsSvcIds t := by
          have : lpsSvcIds (l :: t) = sv.objectId :: lpsSvcIds t := by
            unfold lpsSvcIds
            rw [List.filterMap_cons, hsv]
            rfl
          rw [this] at hnd
          exact (List.nodup_cons.mp hnd).1
        rw [List.foldl_cons, foldl_writeLpsChild_service_not_mem t _ _ hnd',
          writeLpsChild_service, hsv]
        exact updFn_same _ _ _
      · have hnd2 : (lpsSvcIds t).Nodup := by
          unfold lpsSvcIds at hnd ⊢
          rw [List.filterMap_cons] at hnd
          cases hls : a.linkedService with
          | none =>
              rw [hls] at hnd
              simpa using hnd
          | some w =>
              rw [hls] at hnd
              simp only [Option.map_some'] at hnd
              exact hnd.of_cons
        rw [List.foldl_cons]
        exact ih _ _ _ hnd2 hmem hsv

theorem foldl_writeLpsChild_membercostshare_mem (L : List LPS) :
    ∀ (s : Store) (l : LPS) (pc : MCS), (lpsMcsIds L).Nodup → l ∈ L →
      l.planserviceCostShares = some pc →
      (L.foldl writeLpsChild s).membercostshare pc.objectId = some pc := by
  induction L with
  | nil =>
      intro s l pc _ hm _
      cases hm
  | cons a t ih =>
      intro s l pc hnd hm hpc
      rcases List.mem_cons.mp hm with rfl | hmem
      · have hnd' : pc.objectId ∉ lpsMcsIds t := by
          have : lpsMcsIds (l :: t) = pc.objectId :: lpsMcsIds t := by
            unfold lpsMcsIds
            rw [List.filterMap_cons, hpc]
            rfl
          rw [this] at hnd
          exact (List.nodup_cons.mp hnd).1
        rw [List.foldl_cons,
          foldl_writeLpsChild_membercostshare_not_mem t _ _ hnd',
          writeLpsChild_membercostshare, hpc]
        exact updFn_same _ _ _
      · have hnd2 : (lpsMcsIds t).Nodup := by
          unfold lpsMcsIds at hnd ⊢
          rw [List.filterMap_cons] at hnd
          cases hpc2 : a.planserviceCostShares with
          | none =>
              rw [hpc2] at hnd
              simpa using hnd
          | some w =>
              rw [hpc2] at hnd
              simp only [Option.map_some'] at hnd
              exact hnd.of_cons
        rw [List.foldl_cons]
        exact ih _ _ _ hnd2 hmem hpc

theorem expandOne_exact (H : Hash) (s : Store) (a : LPS)
    (hl : s.planservice a.objectId = some a)
    (hsvc : ∀ sv, a.linkedService = some sv → sv.objectId ≠ "" →
        s.service sv.objectId = some sv)
    (hmcs : ∀ pc, a.planserviceCostShares = some pc → pc.objectId ≠ "" →
        s.membercostshare pc.objectId = some pc) :
    (expandOne H s a.objectId).map Prod.fst = some a := by
  obtain ⟨oid, ls, pcs, rest⟩ := a
  unfold expandOne
  rw [hl]
  rcases ls with _ | sv <;> rcases pcs with _ | pc
  · rfl
  · by_cases hpcid : pc.objectId = ""
    · simp [hpcid]
    · simp [hpcid, hmcs pc rfl hpcid]
  · by_cases hsvid : sv.objectId = ""
    · simp [hsvid]
    · simp [hsvid, hsvc sv rfl hsvid]
  · by_cases hsvid : sv.objectId = "" <;> by_cases hpcid : pc.objectId = ""
    · simp [hsvid, hpcid]
    · simp [hsvid, hpcid, hmcs pc rfl hpcid]
    · simp [hsvid, hpcid, hsvc sv rfl hsvid]
    · simp [hsvid, hpcid, hsvc sv rfl hsvid, hmcs pc rfl hpcid]

theorem expandLpsList_exact (H : Hash) (s : Store) (L : List LPS)
    (h1 : ∀ l ∈ L, s.planservice l.objectId = some l)
    (h2 : ∀ l ∈ L, ∀ sv, l.linkedService = some sv → sv.objectId ≠ "" →
        s.service sv.objectId = some sv)
    (h3 : ∀ l ∈ L, ∀ pc, l.planserviceCostShares = some pc → pc.objectId ≠ "" →
        s.membercostshare pc.objectId = some pc) :
    (expandLpsList H s (L.map (fun l => l.objectId))).1 = L := by
  induction L with
  | nil => rfl
  | cons a t ih =>
      have ha : (expandOne H s a.objectId).map Prod.fst = some a :=
        expandOne_exact H s a (h1 a (List.mem_cons_self a t))
          (h2 a (List.mem_cons_self a t)) (h3 a (List.mem_cons_self a t))
      have iht : (expandLpsList H s (t.map (fun l => l.objectId))).1 = t :=
        ih (fun l hl => h1 l (List.mem_cons_of_mem _ hl))
          (fun l hl => h2 l (List.mem_cons_of_mem _ hl))
          (fun l hl => h3 l (List.mem_cons_of_mem _ hl))
      rw [List.map_cons]
      rcases hx : expandOne H s a.objectId with _ | ⟨a', es⟩
      · rw [hx] at ha
        cases ha
      · rw [hx] at ha
        simp only [Option.map_some'] at ha
        injection ha with ha'
        simp only [expandLpsList, hx]
        rw [ha', iht]

/-- Core round trip: decomposing a plan document and re-materializing it
from the resulting store reproduces the document field-for-field, provided
every written child carries a distinct identifier within its namespace
(sibling planservice ids, all cost-share writes, all service writes
pairwise distinct) and a present root cost-share has a truthy id. -/
theorem decompose_materialize_roundtrip (H : Hash) (s : Store) (D : Plan)
    (h1 : (lpsIds D).Nodup)
    (h2 : (mcsWriteIds D).Nodup)
    (h3 : (svcWriteIds D).Nodup)
    (h4 : ∀ m, D.planCostShares = some m → m.objectId ≠ "") :
    (expandPlanWithEtags H
        (putPlanRef (writeChildEntities s D) D.objectId (toPlanRefDoc D))
        (toPlanRefDoc D)).1 = D := by
  obtain ⟨org, oid, ot, pt, cd, pcs, L⟩ := D
  unfold lpsIds at h1
  unfold mcsWriteIds at h2
  unfold svcWriteIds at h3
  dsimp only at h1 h2 h3 h4
  have hmcsnd : (lpsMcsIds L).Nodup := by
    rcases pcs with _ | m
    · exact h2
    · exact (List.nodup_cons.mp
        (show (m.objectId :: lpsMcsIds L).Nodup from h2)).2
  -- (a) each sibling planservice record is found intact
  have hA : ∀ l ∈ L,
      (writeChildEntities s ⟨org, oid, ot, pt, cd, pcs, L⟩).planservice
        l.objectId = some l :=
    fun l hl => foldl_writeLpsChild_planservice_mem L _ l h1 hl
  -- (b) each nested service is found intact
  have hB : ∀ l ∈ L, ∀ sv, l.linkedService = some sv →
      (writeChildEntities s ⟨org, oid, ot, pt, cd, pcs, L⟩).service
        sv.objectId = some sv :=
    fun l hl sv hsv => foldl_writeLpsChild_service_mem L _ l sv h3 hl hsv
  -- (c) each nested cost-share is found intact
  have hC : ∀ l ∈ L, ∀ pc, l.planserviceCostShares = some pc →
      (writeChildEntities s ⟨org, oid, ot, pt, cd, pcs, L⟩).membercostshare
        pc.objectId = some pc :=
    fun l hl pc hpc =>
      foldl_writeLpsChild_membercostshare_mem L _ l pc hmcsnd hl hpc
  -- (d) the root cost-share is found intact
  have hD : ∀ m, pcs = some m →
      (writeChildEntities s ⟨org, oid, ot, pt, cd, pcs, L⟩).membercostshare
        m.objectId = some m := by
    intro m hm
    subst hm
    have hnotin : m.objectId ∉ lpsMcsIds L :=
      (List.nodup_cons.mp
        (show (m.objectId :: lpsMcsIds L).Nodup from h2)).1
    show (L.foldl writeLpsChild (putMcs s m)).membercostshare m.objectId = some m
    rw [foldl_writeLpsChild_membercostshare_not_mem L _ _ hnotin]
    exact updFn_same _ _ _
  unfold expandPlanWithEtags toPlanRefDoc
  dsimp only
  congr 1
  · rcases pcs with _ | m
    · rfl
    · have hid : m.objectId ≠ "" := h4 m rfl
      simp only [Option.map_some']
      rw [if_pos hid]
      have hlook :
          (putPlanRef (writeChildEntities s ⟨org, oid, ot, pt, cd, some m, L⟩)
            oid { _org := org, objectId := oid, objectType := ot,
                  planType := pt, creationDate := cd,
                  planCostSharesId := some m.objectId,
                  linkedPlanServiceIds := L.map (fun l => l.objectId) }).membercostshare
            m.objectId = some m := hD m rfl
      rw [hlook]
  · exact expandLpsList_exact H _ L (fun l hl => hA l hl)
      (fun l hl sv hsv _ => hB l hl sv hsv)
      (fun l hl pc hpc _ => hC l hl pc hpc)

/-- C5 (amended): for a plan document that passes completeValidation
(planSchema plus the nested scan), decomposing and re-materializing
reproduces the document field-for-field, provided additionally that the
sibling planservice ids, the written cost-share ids and the written
service ids are each pairwise distinct.  Validity supplies the non-empty
root cost-share id (minLength 1, derived below) but not cross-object
distinctness: the schema never compares ids across objects and the nested
scan only deduplicates sibling planservice ids, so without the extra
hypotheses the round trip can fail, as the counterexample shows — the
content written last under a shared id wins for every holder of the id. -/
theorem claim5_roundtrip (H : Hash) (s : Store) (D : Plan)
    (hv : completeValidation schemaOk D = true)
    (h1 : (lpsIds D).Nodup)
    (h2 : (mcsWriteIds D).Nodup)
    (h3 : (svcWriteIds D).Nodup) :
    (expandPlanWithEtags H
        (putPlanRef (writeChildEntities s D) D.objectId (toPlanRefDoc D))
        (toPlanRefDoc D)).1 = D := by
  refine decompose_materialize_roundtrip H s D h1 h2 h3 ?_
  intro m hm
  have hs : schemaOk D = true := by
    unfold completeValidation at hv
    simp only [Bool.and_eq_true] at hv
    exact hv.1
  unfold schemaOk at hs
  rw [hm] at hs
  simp only [Bool.and_eq_true] at hs
  have hmcs : mcsSchemaOk m = true := hs.1.1.1.1.1.1
  unfold mcsSchemaOk at hmcs
  simp only [Bool.and_eq_true] at hmcs
  exact of_decide_eq_true hmcs.1

/-- Rest-of-fields bag of a schema-conformant membercostshare: deductible,
`_org`, copay and objectType (objectId is the typed slot). -/
def mcsRest (ded cop : Int) : JVal :=
  .obj [("deductible", .num ded), ("_org", .str "example.com"),
        ("copay", .num cop), ("objectType", .str "membercostshare")]

/-- Rest-of-fields bag of a schema-conformant service descriptor. -/
def svcRest (name : String) : JVal :=
  .obj [("_org", .str "example.com"), ("objectType", .str "service"),
        ("name", .str name)]

/-- Rest-of-fields bag of a schema-conformant planservice entry. -/
def lpsRest : JVal :=
  .obj [("_org", .str "example.com"), ("objectType", .str "planservice")]

/-- A document that passes completeValidation (planSchema plus the nested
scan) but reuses the root cost-share id "c1" for a nested cost-share with
a different deductible/copay. -/
def dupD : Plan :=
  { _org := .str "example.com", objectId := "p1", objectType := .str "plan",
    planType := .str "inNetwork", creationDate := .str "12-12-2017",
    planCostShares := some ⟨"c1", mcsRest 100 10⟩,
    linkedPlanServices :=
      [⟨"s1", some ⟨"v1", svcRest "Yearly physical"⟩,
        some ⟨"c1", mcsRest 5 5⟩, lpsRest⟩] }

/-- Counterexample for C5 as stated: dupD passes completeValidation (the
schema bounds each object's fields but never compares ids across objects,
and the nested scan only requires sibling planservice ids to be distinct —
shared cost-share ids are allowed by design), yet
materialize(decompose(dupD)) returns the nested cost-share's content for
the root planCostShares field, because the nested write under the shared
id "c1" lands last. -/
theorem claim5_counterexample :
    completeValidation schemaOk dupD = true ∧
    (expandPlanWithEtags trivHash
        (putPlanRef (writeChildEntities emptyStore dupD) dupD.objectId
          (toPlanRefDoc dupD))
        (toPlanRefDoc dupD)).1.planCostShares = some ⟨"c1", mcsRest 5 5⟩ ∧
    dupD.planCostShares = some ⟨"c1", mcsRest 100 10⟩ ∧
    (some (MCS.mk "c1" (mcsRest 5 5)) ≠ some (MCS.mk "c1" (mcsRest 100 10))) :=
  ⟨rfl, rfl, rfl, by simp [mcsRest]⟩

/-- A schema-valid document with pairwise-distinct child ids for the C5
witness. -/
def goodD : Plan :=
  { _org := .str "example.com", objectId := "p1", objectType := .str "plan",
    planType := .str "inNetwork", creationDate := .str "12-12-2017",
    planCostShares := some ⟨"c1", mcsRest 100 10⟩,
    linkedPlanServices :=
      [⟨"s1", some ⟨"v1", svcRest "Yearly physical"⟩,
        some ⟨"c2", mcsRest 5 5⟩, lpsRest⟩] }

/-- Witness for C5's amended theorem on a valid document with distinct
child ids. -/
theorem claim5_witness :
    completeValidation schemaOk goodD = true ∧
    (lpsIds goodD).Nodup ∧ (mcsWriteIds goodD).Nodup ∧
    (svcWriteIds goodD).Nodup ∧
    (expandPlanWithEtags trivHash
        (putPlanRef (writeChildEntities emptyStore goodD) goodD.objectId
          (toPlanRefDoc goodD))
        (toPlanRefDoc goodD)).1 = goodD :=
  ⟨rfl, by decide, by decide, by decide,
   claim5_roundtrip trivHash emptyStore goodD rfl (by decide) (by decide)
     (by decide)⟩

/-! ## C6 — append/upsert semantics of linkedPlanServices patches -/

/-- The ids a linkedPlanServices patch appends, in patch order: first
occurrences of ids not already referenced (this is the reference
description of the loop's newIdsToAppend accumulator). -/
def newIdsSpec (existing : List String) : List LPS → List String
  | [] => []
  | e :: rest =>
      if e.objectId ∈ existing then newIdsSpec existing rest
      else e.objectId :: newIdsSpec (e.objectId :: existing) rest

/-- The nested service ids a linkedPlanServices patch writes. -/
def patchSvcIds : List LPS → List String
  | [] => []
  | e :: rest =>
      match e.linkedService with
      | some sv =>
          if sv.objectId = "" then patchSvcIds rest
          else sv.objectId :: patchSvcIds rest
      | none => patchSvcIds rest

/-- The nested cost-share ids a linkedPlanServices patch writes. -/
def patchMcsIds : List LPS → List String
  | [] => []
  | e :: rest =>
      match e.planserviceCostShares with
      | some pc =>
          if pc.objectId = "" then patchMcsIds rest
          else pc.objectId :: patchMcsIds rest
      | none => patchMcsIds rest

theorem upsertChildWrites_planservice (s : Store) (e : LPS) :
    (upsertChildWrites s e).planservice =
      updFn s.planservice e.objectId (some e) := by
  unfold upsertChildWrites
  cases e.linkedService <;> cases e.planserviceCostShares <;> dsimp only <;>
    first
      | rfl
      | (split_ifs <;> rfl)

theorem upsertChildWrites_service (s : Store) (e : LPS) :
    (upsertChildWrites s e).service =
      (match e.linkedService with
       | some sv =>
           if sv.objectId ≠ "" then updFn s.service sv.objectId (some sv)
           else s.service
       | none => s.service) := by
  unfold upsertChildWrites
  cases e.linkedService <;> cases e.planserviceCostShares <;> dsimp only <;>
    first
      | rfl
      | (split_ifs <;> rfl)

theorem upsertChildWrites_membercostshare (s : Store) (e : LPS) :
    (upsertChildWrites s e).membercostshare =
      (match e.planserviceCostShares with
       | some pc =>
           if pc.objectId ≠ "" then updFn s.membercostshare pc.objectId (some pc)
           else s.membercostshare
       | none => s.membercostshare) := by
  unfold upsertChildWrites
  cases e.linkedService <;> cases e.planserviceCostShares <;> dsimp only <;>
    first
      | rfl
      | (split_ifs <;> rfl)

/-- On success the loop's appended ids are exactly newIdsSpec. -/
theorem upsertLpsLoop_newIds (pl : List LPS) :
    ∀ s E acc s' n, upsertLpsLoop s E acc pl = (s', some n) →
      n = acc ++ newIdsSpec E pl := by
  induction pl with
  | nil =>
      intro s E acc s' n h
      injection h with h1 h2
      injection h2 with h2
      simp [newIdsSpec, ← h2]
  | cons e rest ih =>
      intro s E acc s' n h
      simp only [upsertLpsLoop] at h
      by_cases h0 : e.objectId = ""
      · rw [if_pos h0] at h
        injection h with h1 h2
        cases h2
      · rw [if_neg h0] at h
        by_cases hm : e.objectId ∈ E
        · rw [if_pos hm] at h
          rw [ih _ _ _ _ _ h]
          simp [newIdsSpec, hm]
        · rw [if_neg hm] at h
          rw [ih _ _ _ _ _ h]
          simp [newIdsSpec, hm, List.append_assoc]

/-- Ids not named by the patch keep their planservice entry (success or
failure of the loop). -/
theorem upsertLpsLoop_planservice_not_mem (pl : List LPS) :
    ∀ s E acc s' o, upsertLpsLoop s E acc pl = (s', o) →
      ∀ id, id ∉ pl.map (fun e => e.objectId) →
        s'.planservice id = s.planservice id := by
  induction pl with
  | nil =>
      intro s E acc s' o h id _
      injection h with h1 h2
      rw [← h1]
  | cons e rest ih =>
      intro s E acc s' o h id hid
      have hid1 : id ≠ e.objectId := by
        intro hh
        exact hid (by simp [hh])
      have hid2 : id ∉ rest.map (fun e => e.objectId) := by
        intro hh
        exact hid (by simp [hh])
      simp only [upsertLpsLoop] at h
      by_cases h0 : e.objectId = ""
      · rw [if_pos h0] at h
        injection h with h1 h2
        rw [← h1]
      · rw [if_neg h0] at h
        by_cases hm : e.objectId ∈ E
        · rw [if_pos hm] at h
          rw [ih _ _ _ _ _ h id hid2, upsertChildWrites_planservice,
            updFn_ne _ _ _ _ hid1]
        · rw [if_neg hm] at h
          rw [ih _ _ _ _ _ h id hid2, upsertChildWrites_planservice,
            updFn_ne _ _ _ _ hid1]

/-- Service entities whose id the patch does not write are preserved. -/
theorem upsertLpsLoop_service_not_mem (pl : List LPS) :
    ∀ s E acc s' o, upsertLpsLoop s E acc pl = (s', o) →
      ∀ id, id ∉ patchSvcIds pl →
        s'.service id = s.service id := by
  induction pl with
  | nil =>
      intro s E acc s' o h id _
      injection h with h1 h2
      rw [← h1]
  | cons e rest ih =>
      intro s E acc s' o h id hid
      have hid2 : id ∉ patchSvcIds rest := by
        intro hh
        apply hid
        rcases hsv : e.linkedService with _ | sv
        · simpa [patchSvcIds, hsv] using hh
        · by_cases hz : sv.objectId = ""
          · simpa [patchSvcIds, hsv, hz] using hh
          · simp [patchSvcIds, hsv, hz]
            exact Or.inr hh
      have hkeep : ∀ s₀ : Store, (upsertChildWrites s₀ e).service id = s₀.service id := by
        intro s₀
        rw [upsertChildWrites_service]
        rcases hsv : e.linkedService with _ | sv
        · rfl
        · dsimp only
          by_cases hz : sv.objectId = ""
          · rw [if_neg (not_not_intro hz)]
          · rw [if_pos hz]
            refine updFn_ne _ _ _ _ ?_
            intro hh
            apply hid
            subst hh
            simp [patchSvcIds, hsv, hz]
      simp only [upsertLpsLoop] at h
      by_cases h0 : e.objectId = ""
      · rw [if_pos h0] at h
        injection h with h1 h2
        rw [← h1]
      · rw [if_neg h0] at h
        by_cases hm : e.objectId ∈ E
        · rw [if_pos hm] at h
          rw [ih _ _ _ _ _ h id hid2, hkeep]
        · rw [if_neg hm] at h
          rw [ih _ _ _ _ _ h id hid2, hkeep]

/-- Cost-share entities whose id the patch does not write are preserved. -/
theorem upsertLpsLoop_membercostshare_not_mem (pl : List LPS) :
    ∀ s E acc s' o, upsertLpsLoop s E acc pl = (s', o) →
      ∀ id, id ∉ patchMcsIds pl →
        s'.membercostshare id = s.membercostshare id := by
  induction pl with
  | nil =>
      intro s E acc s' o h id _
      injection h with h1 h2
      rw [← h1]
  | cons e rest ih =>
      intro s E acc s' o h id hid
      have hid2 : id ∉ patchMcsIds rest := by
        intro hh
        apply hid
        rcases hpc : e.planserviceCostShares with _ | pc
        · simpa [patchMcsIds, hpc] using hh
        · by_cases hz : pc.objectId = ""
          · simpa [patchMcsIds, hpc, hz] using hh
          · simp [patchMcsIds, hpc, hz]
            exact Or.inr hh
      have hkeep : ∀ s₀ : Store,
          (upsertChildWrites s₀ e).membercostshare id = s₀.membercostshare id := by
        intro s₀
        rw [upsertChildWrites_membercostshare]
        rcases hpc : e.planserviceCostShares with _ | pc
        · rfl
        · dsimp only
          by_cases hz : pc.objectId = ""
          · rw [if_neg (not_not_intro hz)]
          · rw [if_pos hz]
            refine updFn_ne _ _ _ _ ?_
            intro hh
            apply hid
            subst hh
            simp [patchMcsIds, hpc, hz]
      simp only [upsertLpsLoop] at h
      by_cases h0 : e.objectId = ""
      · rw [if_pos h0] at h
        injection h with h1 h2
        rw [← h1]
      · rw [if_neg h0] at h
        by_cases hm : e.objectId ∈ E
        · rw [if_pos hm] at h
          rw [ih _ _ _ _ _ h id hid2, hkeep]
        · rw [if_neg hm] at h
          rw [ih _ _ _ _ _ h id hid2, hkeep]

/-- On success, with pairwise-distinct patch ids, every patch entry ends up
stored under its id. -/
theorem upsertLpsLoop_planservice_mem (pl : List LPS) :
    ∀ s E acc s' n, (pl.map (fun e => e.objectId)).Nodup →
      upsertLpsLoop s E acc pl = (s', some n) →
      ∀ e ∈ pl, s'.planservice e.objectId = some e := by
  induction pl with
  | nil =>
      intro s E acc s' n _ _ e hm
      cases hm
  | cons a rest ih =>
      intro s E acc s' n hnd h e hm
      rw [List.map_cons] at hnd
      have hnd' := List.nodup_cons.mp hnd
      simp only [upsertLpsLoop] at h
      by_cases h0 : a.objectId = ""
      · rw [if_pos h0] at h
        injection h with h1 h2
        cases h2
      · rw [if_neg h0] at h
        rcases List.mem_cons.mp hm with rfl | hmem
        · have hpres : ∀ s₁ E₁ acc₁,
              upsertLpsLoop s₁ E₁ acc₁ rest = (s', some n) →
              s'.planservice e.objectId = s₁.planservice e.objectId :=
            fun s₁ E₁ acc₁ hh =>
              upsertLpsLoop_planservice_not_mem rest s₁ E₁ acc₁ s' (some n)
                hh e.objectId hnd'.1
          by_cases hmE : e.objectId ∈ E
          · rw [if_pos hmE] at h
            rw [hpres _ _ _ h, upsertChildWrites_planservice, updFn_same]
          · rw [if_neg hmE] at h
            rw [hpres _ _ _ h, upsertChildWrites_planservice, updFn_same]
        · by_cases hmE : a.objectId ∈ E
          · rw [if_pos hmE] at h
            exact ih _ _ _ _ _ hnd'.2 h e hmem
          · rw [if_neg hmE] at h
            exact ih _ _ _ _ _ hnd'.2 h e hmem

/-- Rebuilding is insensitive to the plan namespace. -/
theorem rebuildList_putPlanRef (s : Store) (i : String) (r : PlanRef)
    (ids : List String) : rebuildList (putPlanRef s i r) ids = rebuildList s ids :=
  rfl

/-- Materializing an id whose stored record and nested children are
untouched between two stores yields the same entry. -/
theorem rebuildOne_preserved (s s' : Store) (id : String) (l : LPS)
    (hid : s'.planservice id = s.planservice id)
    (hl : s.planservice id = some l)
    (hsv : ∀ sv, l.linkedService = some sv → sv.objectId ≠ "" →
        s'.service sv.objectId = s.service sv.objectId)
    (hpc : ∀ pc, l.planserviceCostShares = some pc → pc.objectId ≠ "" →
        s'.membercostshare pc.objectId = s.membercostshare pc.objectId) :
    rebuildOne s' id = rebuildOne s id := by
  obtain ⟨oid, ls, pcs, rest⟩ := l
  unfold rebuildOne
  rw [hid, hl]
  rcases ls with _ | sv <;> rcases pcs with _ | pc
  · rfl
  · dsimp only
    by_cases hz : pc.objectId = ""
    · simp only [if_neg (not_not_intro hz)]
    · simp only [if_pos hz]
      rw [hpc pc rfl hz]
  · dsimp only
    by_cases hz : sv.objectId = ""
    · simp only [if_neg (not_not_intro hz)]
    · simp only [if_pos hz]
      rw [hsv sv rfl hz]
  · dsimp only
    by_cases hz1 : sv.objectId = "" <;> by_cases hz2 : pc.objectId = ""
    · simp only [if_neg (not_not_intro hz1), if_neg (not_not_intro hz2)]
    · simp only [if_neg (not_not_intro hz1), if_pos hz2]
      rw [hpc pc rfl hz2]
    · simp only [if_pos hz1, if_neg (not_not_intro hz2)]
      rw [hsv sv rfl hz1]
    · simp only [if_pos hz1, if_pos hz2]
      rw [hsv sv rfl hz1, hpc pc rfl hz2]

/-- C6 (amended): a patch carrying linkedPlanServices upserts by id into the
existing ordered id list — the final list is the old list with the patch's
not-yet-referenced ids appended in patch order, ids already referenced are
updated in place, stored records of untouched ids are preserved, and the
response materializes exactly the final id list.  The materialized content
of an untouched entry is preserved PROVIDED the patch does not rewrite a
nested service or cost-share entity the entry references; a patch entry that
shares such a nested id changes the untouched entry's materialized content,
as the counterexample shows. -/
theorem claim6_lps_upsert (H : Hash) (schema : Plan → Bool) (s : Store)
    (pid : String) (ifm : Option String) (patch : PatchBody) (ref : PlanRef)
    (PL : List LPS) (after : Plan) (etg : String) (s' : Store)
    (hs : s.plan pid = some ref)
    (hpcs : patch.planCostShares = none)
    (hlps : patch.linkedPlanServices = some PL)
    (hnd : (PL.map (fun e => e.objectId)).Nodup)
    (hres : patchPlan H schema s pid ifm patch = (.ok after etg, s')) :
    (∃ ref', s'.plan pid = some ref' ∧
        ref'.linkedPlanServiceIds =
          ref.linkedPlanServiceIds ++ newIdsSpec ref.linkedPlanServiceIds PL) ∧
    (∀ id, id ∉ PL.map (fun e => e.objectId) →
        s'.planservice id = s.planservice id) ∧
    (∀ e ∈ PL, s'.planservice e.objectId = some e) ∧
    after.linkedPlanServices =
      rebuildList s'
        (ref.linkedPlanServiceIds ++ newIdsSpec ref.linkedPlanServiceIds PL) ∧
    (∀ id l, s.planservice id = some l → id ∉ PL.map (fun e => e.objectId) →
        (∀ sv, l.linkedService = some sv → sv.objectId ∉ patchSvcIds PL) →
        (∀ pc, l.planserviceCostShares = some pc → pc.objectId ∉ patchMcsIds PL) →
        rebuildOne s' id = rebuildOne s id) := by
  unfold patchPlan at hres
  split at hres
  · simp at hres
  · rename_i refData hsd
    rw [hs] at hsd
    injection hsd with hrd
    subst hrd
    split at hres
    · simp at hres
    · simp at hres
    · rw [hpcs] at hres
      simp only [pcsStep] at hres
      rw [hlps] at hres
      simp only [lpsStep] at hres
      split at hres
      · rename_i r heq
        subst hres
        split at heq
        · rename_i s1 hu
          injection heq with h
          simp at h
        · rename_i s1 nIds hu
          cases heq
      · rename_i sOK refOK afterOK hmatch
        split at hmatch
        · rename_i s1 hu
          cases hmatch
        · rename_i s1 nIds hu
          injection hmatch with h
          injection h with h1 h23
          injection h23 with h2 h3
          subst h1
          subst h2
          subst h3
          split at hres
          · rename_i hv
            injection hres with h1 h2
            injection h1 with ha he
            subst ha
            subst h2
            have hnew : nIds = newIdsSpec ref.linkedPlanServiceIds PL := by
              have := upsertLpsLoop_newIds PL s ref.linkedPlanServiceIds [] s1
                nIds hu
              simpa using this
            subst hnew
            refine ⟨⟨_, updFn_same _ _ _, rfl⟩, ?_, ?_, rfl, ?_⟩
            · intro id hid
              exact upsertLpsLoop_planservice_not_mem PL s _ _ s1 _ hu id hid
            · intro e hm
              exact upsertLpsLoop_planservice_mem PL s _ _ s1 _ hnd hu e hm
            · intro id l hsl hnotin hsvc hmcs
              have hid : s1.planservice id = s.planservice id :=
                upsertLpsLoop_planservice_not_mem PL s _ _ s1 _ hu id hnotin
              exact rebuildOne_preserved s s1 id l hid hsl
                (fun sv hsv hz =>
                  upsertLpsLoop_service_not_mem PL s _ _ s1 _ hu sv.objectId
                    (hsvc sv hsv))
                (fun pc hpc hz =>
                  upsertLpsLoop_membercostshare_not_mem PL s _ _ s1 _ hu
                    pc.objectId (hmcs pc hpc))
          · simp at hres

/-- Stored entry S1 referencing the shared service "sv" with name "A" and
its own cost-share "cs1". -/
def s1C6 : LPS :=
  ⟨"s1", some ⟨"sv", svcRest "A"⟩, some ⟨"cs1", mcsRest 2 2⟩, lpsRest⟩

/-- Patch entry S2 rewriting the shared service "sv" to name "B", with its
own cost-share "cs2". -/
def s2C6 : LPS :=
  ⟨"s2", some ⟨"sv", svcRest "B"⟩, some ⟨"cs2", mcsRest 3 3⟩, lpsRest⟩

/-- The stored plan reference: root cost-share "c0", entry list [S1]. -/
def refC6 : PlanRef :=
  { _org := .str "example.com", objectId := "p1", objectType := .str "plan",
    planType := .str "inNetwork", creationDate := .str "12-12-2017",
    planCostSharesId := some "c0", linkedPlanServiceIds := ["s1"] }

/-- A store holding plan "p1", entry S1, the shared service "sv" (name
"A") and the cost-shares "c0" and "cs1". -/
def storeC6 : Store :=
  putMcs (putMcs (putSvc (putLps (putPlanRef emptyStore "p1" refC6) s1C6)
    ⟨"sv", svcRest "A"⟩) ⟨"c0", mcsRest 1 1⟩) ⟨"cs1", mcsRest 2 2⟩

/-- A patch adding the new entry S2. -/
def patchC6 : PatchBody := { linkedPlanServices := some [s2C6] }

/-- Counterexample for C6 as stated: the patched document passes the real
schema validation and the patch succeeds with the materialized order
[S1, S2], but S1's materialized content is NOT unchanged — S2's upsert of
the shared nested service "sv" changes S1's linkedService name from "A" to
"B". -/
theorem claim6_counterexample :
    (patchPlan trivHash schemaOk storeC6 "p1" (some "h") patchC6).1 =
      .ok { _org := .str "example.com", objectId := "p1",
            objectType := .str "plan", planType := .str "inNetwork",
            creationDate := .str "12-12-2017",
            planCostShares := some ⟨"c0", mcsRest 1 1⟩,
            linkedPlanServices :=
              [⟨"s1", some ⟨"sv", svcRest "B"⟩, some ⟨"cs1", mcsRest 2 2⟩,
                lpsRest⟩,
               ⟨"s2", some ⟨"sv", svcRest "B"⟩, some ⟨"cs2", mcsRest 3 3⟩,
                lpsRest⟩] } "h" ∧
    (expandPlanWithEtags trivHash storeC6 refC6).1.linkedPlanServices =
      [⟨"s1", some ⟨"sv", svcRest "A"⟩, some ⟨"cs1", mcsRest 2 2⟩, lpsRest⟩] ∧
    (LPS.mk "s1" (some ⟨"sv", svcRest "B"⟩) (some ⟨"cs1", mcsRest 2 2⟩) lpsRest ≠
      LPS.mk "s1" (some ⟨"sv", svcRest "A"⟩) (some ⟨"cs1", mcsRest 2 2⟩) lpsRest) :=
  ⟨rfl, rfl, by simp [svcRest]⟩

/-- Witness data: entry S1 with its own service "v1" and cost-share "cs1". -/
def s1W6 : LPS :=
  ⟨"s1", some ⟨"v1", svcRest "A"⟩, some ⟨"cs1", mcsRest 2 2⟩, lpsRest⟩

/-- Witness data: new entry S2 with its own service "v2" and cost-share
"cs2". -/
def s2W6 : LPS :=
  ⟨"s2", some ⟨"v2", svcRest "B"⟩, some ⟨"cs2", mcsRest 3 3⟩, lpsRest⟩

/-- Witness data: the stored reference with root cost-share "c0", listing
only S1. -/
def refW6 : PlanRef :=
  { _org := .str "example.com", objectId := "p1", objectType := .str "plan",
    planType := .str "inNetwork", creationDate := .str "12-12-2017",
    planCostSharesId := some "c0", linkedPlanServiceIds := ["s1"] }

/-- Witness data: the store holding plan "p1", S1, service "v1" and the
cost-shares "c0" and "cs1". -/
def storeW6 : Store :=
  putMcs (putMcs (putSvc (putLps (putPlanRef emptyStore "p1" refW6) s1W6)
    ⟨"v1", svcRest "A"⟩) ⟨"c0", mcsRest 1 1⟩) ⟨"cs1", mcsRest 2 2⟩

/-- Witness data: the patch adding S2. -/
def patchW6 : PatchBody := { linkedPlanServices := some [s2W6] }

/-- Witness data: the expected successful patch response document. -/
def afterW6 : Plan :=
  { _org := .str "example.com", objectId := "p1", objectType := .str "plan",
    planType := .str "inNetwork", creationDate := .str "12-12-2017",
    planCostShares := some ⟨"c0", mcsRest 1 1⟩,
    linkedPlanServices := [s1W6, s2W6] }

/-- Witness for C6's amended theorem on a patch with disjoint nested ids:
S2 is appended after S1, both are stored by id, and the untouched S1
materializes unchanged. -/
theorem claim6_witness :
    storeW6.plan "p1" = some refW6 ∧
    ((∃ ref',
        (patchPlan trivHash schemaOk storeW6 "p1" (some "h") patchW6).2.plan "p1" =
          some ref' ∧
        ref'.linkedPlanServiceIds =
          refW6.linkedPlanServiceIds ++
            newIdsSpec refW6.linkedPlanServiceIds [s2W6]) ∧
      (∀ id, id ∉ [s2W6].map (fun e => e.objectId) →
          (patchPlan trivHash schemaOk storeW6 "p1" (some "h") patchW6).2.planservice id =
            storeW6.planservice id) ∧
      (∀ e ∈ [s2W6],
          (patchPlan trivHash schemaOk storeW6 "p1" (some "h") patchW6).2.planservice
            e.objectId = some e) ∧
      afterW6.linkedPlanServices =
        rebuildList (patchPlan trivHash schemaOk storeW6 "p1" (some "h") patchW6).2
          (refW6.linkedPlanServiceIds ++
            newIdsSpec refW6.linkedPlanServiceIds [s2W6]) ∧
      (∀ id l, storeW6.planservice id = some l →
          id ∉ [s2W6].map (fun e => e.objectId) →
          (∀ sv, l.linkedService = some sv → sv.objectId ∉ patchSvcIds [s2W6]) →
          (∀ pc, l.planserviceCostShares = some pc →
              pc.objectId ∉ patchMcsIds [s2W6]) →
          rebuildOne (patchPlan trivHash schemaOk storeW6 "p1" (some "h") patchW6).2 id =
            rebuildOne storeW6 id)) :=
  ⟨rfl,
   claim6_lps_upsert trivHash schemaOk storeW6 "p1" (some "h") patchW6 refW6
     [s2W6] afterW6 "h"
     (patchPlan trivHash schemaOk storeW6 "p1" (some "h") patchW6).2
     rfl rfl rfl (by decide) rfl⟩

end BigDataIndexing
